import Mathlib

/-!
Shallow embedding of `src/expression-parser.ts` (fambro/simple-expression-parser):
the sticky-regex tokenizer (`TOKEN_DEFINITIONS`, `TOKEN_ORDER`, `tokenize`) and the
recursive-descent parser (`parseExpression` with its inner `parse`, `parseExpr`,
`parseComparison`, `parseEquality`, `parseRelational`, `parsePrimary`).

Strings are modelled as their character lists; each regular expression of the
source is modelled as an anchored matcher `List Char → Option (List Char × List Char)`
returning the matched text and the remaining input, following the source's
sticky (`y`) regexes which match exactly at the current offset.  A JavaScript
exception escaping a function is modelled as `Except.error`; the `try/catch`
inside the source's `parse` is modelled by `parse` returning the structured
`ParseResult` directly.
-/

namespace ExprParser

/-- The closed set of token kind tags used by the source (`TOKEN_DEFINITIONS` keys). -/
inductive TokenType where
  | WHITESPACE
  | NUMBER
  | STRING
  | BOOLEAN
  | VARIABLE
  | AND
  | EQ
  | NEQ
  | LTE
  | LT
  | GTE
  | GT
  | LPAREN
  | RPAREN
deriving DecidableEq, Repr

/-- The string tag of a token kind, as it appears in the source's `Map` keys and
in the interpolated error messages. -/
def typeName : TokenType → String
  | .WHITESPACE => "WHITESPACE"
  | .NUMBER => "NUMBER"
  | .STRING => "STRING"
  | .BOOLEAN => "BOOLEAN"
  | .VARIABLE => "VARIABLE"
  | .AND => "AND"
  | .EQ => "EQ"
  | .NEQ => "NEQ"
  | .LTE => "LTE"
  | .LT => "LT"
  | .GTE => "GTE"
  | .GT => "GT"
  | .LPAREN => "LPAREN"
  | .RPAREN => "RPAREN"

/-- `interface Token { type: string; value: any }`: the `value` is the matched
text, except for `STRING` tokens where it is the capture group (the content
without the surrounding quotes). -/
structure Token where
  type : TokenType
  value : String
deriving DecidableEq, Repr

/-- JavaScript `\s` character class (the characters the `WHITESPACE` regex `\s+`
and `String.prototype.trim` recognize). -/
def jsWhitespace (c : Char) : Bool :=
  let n := c.toNat
  n = 0x20 || n = 0x09 || n = 0x0a || n = 0x0b || n = 0x0c || n = 0x0d ||
  n = 0xa0 || n = 0x1680 || (0x2000 <= n && n <= 0x200a) ||
  n = 0x2028 || n = 0x2029 || n = 0x202f || n = 0x205f || n = 0x3000 || n = 0xfeff

/-- JavaScript `\w` character class, used to decide the `\b` word boundaries in
the source's regexes. -/
def wordChar (c : Char) : Bool :=
  ('a' ≤ c && c ≤ 'z') || ('A' ≤ c && c ≤ 'Z') || ('0' ≤ c && c ≤ '9') || c = '_'

/-- A `\b` word boundary holds after a word character when the input ends there
or continues with a non-word character. -/
def boundaryAfter : List Char → Bool
  | [] => true
  | c :: _ => !wordChar c

/-- Anchored literal match: `startsWith kw s` returns the rest of `s` when `kw`
is a prefix of `s`. -/
def startsWith : List Char → List Char → Option (List Char)
  | [], s => some s
  | _ :: _, [] => none
  | k :: ks, c :: cs => if c = k then startsWith ks cs else none

/-- Matcher for a literal token regex such as `/==/y` or `/\(/y`. -/
def matchKeyword (kw : List Char) (s : List Char) : Option (List Char × List Char) :=
  (startsWith kw s).map (fun r => (kw, r))

/-- Matcher for a keyword regex with a trailing word boundary, such as
`/(?:and|AND)\b/y` restricted to one alternative. -/
def matchKeywordB (kw : List Char) (s : List Char) : Option (List Char × List Char) :=
  match startsWith kw s with
  | some r => if boundaryAfter r then some (kw, r) else none
  | none => none

/-- `WHITESPACE: /\s+/y` — one or more whitespace characters, greedy. -/
def matchWhitespace (s : List Char) : Option (List Char × List Char) :=
  let w := s.takeWhile jsWhitespace
  if w.isEmpty then none else some (w, s.dropWhile jsWhitespace)

/-- `NUMBER: /(?:[0-9]+(?:\.[0-9]+)?\b)/y`.  The greedy digit runs can only
backtrack into a shorter match by dropping the whole optional fraction
(shrinking a digit run always leaves the next character a digit, failing `\b`),
so the candidates are: full match with fraction, else the integer part alone,
each subject to the trailing word boundary. -/
def matchNumber (s : List Char) : Option (List Char × List Char) :=
  let ds := s.takeWhile Char.isDigit
  if ds.isEmpty then none
  else
    let r1 := s.dropWhile Char.isDigit
    match r1 with
    | '.' :: r2 =>
      let fs := r2.takeWhile Char.isDigit
      if fs.isEmpty then
        if boundaryAfter r1 then some (ds, r1) else none
      else
        let r3 := r2.dropWhile Char.isDigit
        if boundaryAfter r3 then some (ds ++ '.' :: fs, r3)
        else if boundaryAfter r1 then some (ds, r1)
        else none
    | _ => if boundaryAfter r1 then some (ds, r1) else none

/-- The `[^"]` character class of the `STRING` regex. -/
def notQuote (c : Char) : Bool := c ≠ '"'

/-- `STRING: /"([^"]*)"/y` — a quote, any run of non-quote characters, a quote. -/
def matchString (s : List Char) : Option (List Char × List Char) :=
  match s with
  | '"' :: r =>
    let content := r.takeWhile notQuote
    match r.dropWhile notQuote with
    | '"' :: rest => some ('"' :: (content ++ ['"']), rest)
    | _ => none
  | _ => none

/-- `BOOLEAN: /(?:true|false)\b/y`. -/
def matchBoolean (s : List Char) : Option (List Char × List Char) :=
  match matchKeywordB "true".data s with
  | some m => some m
  | none => matchKeywordB "false".data s

/-- `AND: /(?:and|AND)\b/y`. -/
def matchAnd (s : List Char) : Option (List Char × List Char) :=
  match matchKeywordB "and".data s with
  | some m => some m
  | none => matchKeywordB "AND".data s

/-- The seven alternatives of the default `VARIABLE` regex; none is a prefix of
another, so at most one can match at a given position. -/
def variablePrefixes : List (List Char) :=
  ["binaryblob".data, "boolean".data, "datetime".data, "double".data,
   "integer".data, "longinteger".data, "string".data]

/-- The `(array)?_value\b` tail of the default `VARIABLE` regex.  The greedy
`(array)?` group is tried first; if its continuation (including the `\b`)
fails, the regex backtracks to the empty alternative. -/
def matchVarSuffix (r1 : List Char) : Option (List Char × List Char) :=
  match startsWith "array_value".data r1 with
  | some rest =>
    if boundaryAfter rest then some ("array_value".data, rest)
    else
      match startsWith "_value".data r1 with
      | some rest2 => if boundaryAfter rest2 then some ("_value".data, rest2) else none
      | none => none
  | none =>
    match startsWith "_value".data r1 with
    | some rest2 => if boundaryAfter rest2 then some ("_value".data, rest2) else none
    | none => none

/-- Helper scanning the alternation of `variablePrefixes` in order. -/
def matchVariableAux : List (List Char) → List Char → Option (List Char × List Char)
  | [], _ => none
  | p :: ps, s =>
    match startsWith p s with
    | some r1 =>
      match matchVarSuffix r1 with
      | some (suf, rest) => some (p ++ suf, rest)
      | none => matchVariableAux ps s
    | none => matchVariableAux ps s

/-- `VARIABLE: /(binaryblob|boolean|datetime|double|integer|longinteger|string)(array)?_value\b/y`. -/
def matchVariableDefault (s : List Char) : Option (List Char × List Char) :=
  matchVariableAux variablePrefixes s



/-! ### Soundness of the matchers: a match splits the input and is nonempty -/

/-- A matcher is anchored and productive: a successful match splits the input
into the matched text and the rest, and the matched text is nonempty.  (A
sticky regex matching the empty string would make the source's scan loop spin
forever, so every matcher used must be productive.) -/
def MatcherSound (m : List Char → Option (List Char × List Char)) : Prop :=
  ∀ s t r, m s = some (t, r) → s = t ++ r ∧ t ≠ []

theorem startsWith_sound : ∀ kw s r, startsWith kw s = some r → s = kw ++ r := by
  intro kw
  induction kw with
  | nil => intro s r h; simpa [startsWith] using h
  | cons k ks ih =>
    intro s r h
    cases s with
    | nil => simp [startsWith] at h
    | cons c cs =>
      by_cases hc : c = k
      · simp only [startsWith, if_pos hc] at h
        simpa [hc] using congrArg (k :: ·) (ih cs r h)
      · simp [startsWith, hc] at h

theorem matchKeyword_sound (kw : List Char) (hkw : kw ≠ []) :
    MatcherSound (matchKeyword kw) := by
  intro s t r h
  unfold matchKeyword at h
  cases hsw : startsWith kw s with
  | none => rw [hsw] at h; simp at h
  | some r' =>
    rw [hsw] at h
    simp at h
    obtain ⟨rfl, rfl⟩ := h
    exact ⟨startsWith_sound _ _ _ hsw, hkw⟩

theorem matchKeywordB_sound (kw : List Char) (hkw : kw ≠ []) :
    MatcherSound (matchKeywordB kw) := by
  intro s t r h
  unfold matchKeywordB at h
  split at h
  · rename_i r' hsw
    split at h
    · simp only [Option.some.injEq, Prod.mk.injEq] at h
      obtain ⟨rfl, rfl⟩ := h
      exact ⟨startsWith_sound _ _ _ hsw, hkw⟩
    · simp at h
  · simp at h

theorem matchWhitespace_sound : MatcherSound matchWhitespace := by
  intro s t r h
  simp only [matchWhitespace] at h
  split at h
  · simp at h
  · rename_i hne
    simp only [Option.some.injEq, Prod.mk.injEq] at h
    obtain ⟨rfl, rfl⟩ := h
    refine ⟨(List.takeWhile_append_dropWhile jsWhitespace s).symm, ?_⟩
    simpa [List.isEmpty_iff] using hne

theorem matchNumber_sound : MatcherSound matchNumber := by
  intro s t r h
  simp only [matchNumber] at h
  have hsplit := List.takeWhile_append_dropWhile Char.isDigit s
  generalize hDS : s.takeWhile Char.isDigit = DS at h hsplit
  generalize hDW : s.dropWhile Char.isDigit = DW at h hsplit
  split at h
  · simp at h
  · rename_i hne
    have hds : DS ≠ [] := by simpa [List.isEmpty_iff] using hne
    split at h
    · rename_i r2
      split at h
      · split at h
        · simp only [Option.some.injEq, Prod.mk.injEq] at h
          obtain ⟨rfl, rfl⟩ := h
          exact ⟨hsplit.symm, hds⟩
        · simp at h
      · split at h
        · simp only [Option.some.injEq, Prod.mk.injEq] at h
          obtain ⟨rfl, rfl⟩ := h
          refine ⟨?_, by simp⟩
          rw [← hsplit]
          simp
        · split at h
          · simp only [Option.some.injEq, Prod.mk.injEq] at h
            obtain ⟨rfl, rfl⟩ := h
            exact ⟨hsplit.symm, hds⟩
          · simp at h
    · split at h
      · simp only [Option.some.injEq, Prod.mk.injEq] at h
        obtain ⟨rfl, rfl⟩ := h
        exact ⟨hsplit.symm, hds⟩
      · simp at h

theorem matchString_sound : MatcherSound matchString := by
  intro s t r h
  simp only [matchString] at h
  split at h
  · rename_i cs
    have hsplit := List.takeWhile_append_dropWhile notQuote cs
    generalize hCT : cs.takeWhile notQuote = CT at h hsplit
    generalize hCD : cs.dropWhile notQuote = CD at h hsplit
    split at h
    · rename_i rest
      simp only [Option.some.injEq, Prod.mk.injEq] at h
      obtain ⟨rfl, rfl⟩ := h
      refine ⟨?_, by simp⟩
      rw [← hsplit]
      simp
    · simp at h
  · simp at h

theorem matchBoolean_sound : MatcherSound matchBoolean := by
  intro s t r h
  unfold matchBoolean at h
  split at h
  · rename_i m htrue
    simp only [Option.some.injEq] at h
    subst h
    exact matchKeywordB_sound _ (by decide) _ _ _ htrue
  · exact matchKeywordB_sound _ (by decide) _ _ _ h

theorem matchAnd_sound : MatcherSound matchAnd := by
  intro s t r h
  unfold matchAnd at h
  split at h
  · rename_i m hand
    simp only [Option.some.injEq] at h
    subst h
    exact matchKeywordB_sound _ (by decide) _ _ _ hand
  · exact matchKeywordB_sound _ (by decide) _ _ _ h

theorem matchVarSuffix_sound : ∀ r1 suf rest,
    matchVarSuffix r1 = some (suf, rest) → r1 = suf ++ rest ∧ suf ≠ [] := by
  intro r1 suf rest h
  unfold matchVarSuffix at h
  split at h
  · rename_i ra ha
    split at h
    · simp only [Option.some.injEq, Prod.mk.injEq] at h
      obtain ⟨rfl, rfl⟩ := h
      exact ⟨startsWith_sound _ _ _ ha, by decide⟩
    · split at h
      · rename_i rv hv
        split at h
        · simp only [Option.some.injEq, Prod.mk.injEq] at h
          obtain ⟨rfl, rfl⟩ := h
          exact ⟨startsWith_sound _ _ _ hv, by decide⟩
        · simp at h
      · simp at h
  · rename_i ha
    split at h
    · rename_i rv hv
      split at h
      · simp only [Option.some.injEq, Prod.mk.injEq] at h
        obtain ⟨rfl, rfl⟩ := h
        exact ⟨startsWith_sound _ _ _ hv, by decide⟩
      · simp at h
    · simp at h

theorem matchVariableAux_sound (ps : List (List Char)) :
    MatcherSound (matchVariableAux ps) := by
  induction ps with
  | nil => intro s t r h; simp [matchVariableAux] at h
  | cons p ps ih =>
    intro s t r h
    unfold matchVariableAux at h
    split at h
    · rename_i r1 hp
      split at h
      · rename_i suf rest2 hsuf
        simp only [Option.some.injEq, Prod.mk.injEq] at h
        obtain ⟨rfl, rfl⟩ := h
        obtain ⟨hr1, hsufne⟩ := matchVarSuffix_sound _ _ _ hsuf
        refine ⟨?_, by simp [hsufne]⟩
        rw [startsWith_sound _ _ _ hp, hr1]
        simp
      · exact ih s t r h
    · exact ih s t r h

theorem matchVariableDefault_sound : MatcherSound matchVariableDefault :=
  matchVariableAux_sound variablePrefixes

/-! ### The tokenizer -/

/-- The caller-configurable `VARIABLE` matcher (`options.variableRegexp` /
`createTokenDefinitionsWithVariable`), bundled with its anchored-productive
property: a sticky regex matching the empty string would make the source's
scan loop diverge, so only productive matchers are meaningful configurations. -/
structure VariableMatcher where
  fn : List Char → Option (List Char × List Char)
  sound : MatcherSound fn

/-- The default `VARIABLE` entry of `TOKEN_DEFINITIONS`. -/
def defaultVariableMatcher : VariableMatcher :=
  ⟨matchVariableDefault, matchVariableDefault_sound⟩

/-- The matcher of one token kind, per the `TOKEN_DEFINITIONS` map (with the
`VARIABLE` entry replaced by the configured matcher, as in
`createTokenDefinitionsWithVariable`). -/
def matcherFor (vm : VariableMatcher) : TokenType → List Char → Option (List Char × List Char)
  | .WHITESPACE => matchWhitespace
  | .NUMBER => matchNumber
  | .STRING => matchString
  | .BOOLEAN => matchBoolean
  | .VARIABLE => vm.fn
  | .AND => matchAnd
  | .EQ => matchKeyword "==".data
  | .NEQ => matchKeyword "!=".data
  | .LTE => matchKeyword "<=".data
  | .LT => matchKeyword "<".data
  | .GTE => matchKeyword ">=".data
  | .GT => matchKeyword ">".data
  | .LPAREN => matchKeyword "(".data
  | .RPAREN => matchKeyword ")".data

/-- `TOKEN_ORDER`: the fixed priority order in which the scan loop tries the
token patterns at each offset. -/
def TOKEN_ORDER : List TokenType :=
  [.WHITESPACE, .LTE, .GTE, .EQ, .NEQ, .LT, .GT, .AND,
   .BOOLEAN, .VARIABLE, .NUMBER, .STRING, .LPAREN, .RPAREN]

/-- The inner `for (const type of TOKEN_ORDER)` loop: try the matchers in
order, first success wins. -/
def findFirstMatch (vm : VariableMatcher) :
    List TokenType → List Char → Option (TokenType × List Char × List Char)
  | [], _ => none
  | k :: ks, s =>
    match matcherFor vm k s with
    | some (t, r) => some (k, t, r)
    | none => findFirstMatch vm ks s

/-- One scan step of `tokenize`: the first pattern of `TOKEN_ORDER` matching at
the current offset. -/
def findMatch (vm : VariableMatcher) (s : List Char) :
    Option (TokenType × List Char × List Char) :=
  findFirstMatch vm TOKEN_ORDER s

/-- The `value` stored in the emitted token: the matched text, except for
`STRING` where the capture group (the content between the quotes) is stored. -/
def tokenValue (k : TokenType) (text : List Char) : String :=
  match k with
  | .STRING => String.mk ((text.drop 1).dropLast)
  | _ => String.mk text

/-- The `while (pos < input.length)` scan loop of `tokenize`.  The fuel is a
structural-recursion bound; every matcher consumes at least one character, so
fuel `s.length` never runs out (`tokenizeLoopF_fuel`). -/
def tokenizeLoopF (vm : VariableMatcher) : Nat → Nat → List Char → Except String (List Token)
  | _, _, [] => .ok []
  | 0, _, _ :: _ => .error "lexer fuel exhausted"
  | fuel + 1, pos, c :: cs =>
    match findMatch vm (c :: cs) with
    | none =>
      .error ("Token error " ++ toString pos ++ ": \"" ++
        String.mk ((c :: cs).take 10) ++ "...\"")
    | some (k, text, rest) =>
      if k = .WHITESPACE then tokenizeLoopF vm fuel (pos + text.length) rest
      else (tokenizeLoopF vm fuel (pos + text.length) rest).map
        (fun ts => Token.mk k (tokenValue k text) :: ts)

/-- `tokenize` from offset `pos` on the remaining characters. -/
def tokenizeCore (vm : VariableMatcher) (pos : Nat) (s : List Char) :
    Except String (List Token) :=
  tokenizeLoopF vm s.length pos s

/-- `export function tokenize(input, options?)` with an explicit matcher
configuration.  `Except.error` models the thrown `Error`. -/
def tokenizeWith (vm : VariableMatcher) (input : String) : Except String (List Token) :=
  tokenizeCore vm 0 input.data

/-- `tokenize(input)` with the default `TOKEN_DEFINITIONS`. -/
def tokenize (input : String) : Except String (List Token) :=
  tokenizeWith defaultVariableMatcher input

/-- `String.prototype.trim`: strip leading and trailing `\s` characters. -/
def jsTrim (s : String) : String :=
  String.mk (((s.data.dropWhile jsWhitespace).reverse.dropWhile jsWhitespace).reverse)

/-! ### Basic facts about the scan step -/

theorem findFirstMatch_sound (vm : VariableMatcher) :
    ∀ order s k text rest, findFirstMatch vm order s = some (k, text, rest) →
      s = text ++ rest ∧ text ≠ [] := by
  intro order
  induction order with
  | nil => intro s k text rest h; simp [findFirstMatch] at h
  | cons k0 ks ih =>
    intro s k text rest h
    unfold findFirstMatch at h
    split at h
    · rename_i t r hm
      simp only [Option.some.injEq, Prod.mk.injEq] at h
      obtain ⟨rfl, rfl, rfl⟩ := h
      cases k0 with
      | WHITESPACE => exact matchWhitespace_sound _ _ _ hm
      | NUMBER => exact matchNumber_sound _ _ _ hm
      | STRING => exact matchString_sound _ _ _ hm
      | BOOLEAN => exact matchBoolean_sound _ _ _ hm
      | VARIABLE => exact vm.sound _ _ _ hm
      | AND => exact matchAnd_sound _ _ _ hm
      | EQ => exact matchKeyword_sound _ (by decide) _ _ _ hm
      | NEQ => exact matchKeyword_sound _ (by decide) _ _ _ hm
      | LTE => exact matchKeyword_sound _ (by decide) _ _ _ hm
      | LT => exact matchKeyword_sound _ (by decide) _ _ _ hm
      | GTE => exact matchKeyword_sound _ (by decide) _ _ _ hm
      | GT => exact matchKeyword_sound _ (by decide) _ _ _ hm
      | LPAREN => exact matchKeyword_sound _ (by decide) _ _ _ hm
      | RPAREN => exact matchKeyword_sound _ (by decide) _ _ _ hm
    · exact ih s k text rest h

theorem findMatch_sound (vm : VariableMatcher) {s k text rest}
    (h : findMatch vm s = some (k, text, rest)) : s = text ++ rest ∧ text ≠ [] :=
  findFirstMatch_sound vm TOKEN_ORDER s k text rest h

theorem tokenizeLoopF_succ (vm : VariableMatcher) (fuel pos : Nat) (c : Char) (cs : List Char) :
    tokenizeLoopF vm (fuel + 1) pos (c :: cs) =
      match findMatch vm (c :: cs) with
      | none =>
        .error ("Token error " ++ toString pos ++ ": \"" ++
          String.mk ((c :: cs).take 10) ++ "...\"")
      | some (k, text, rest) =>
        if k = TokenType.WHITESPACE then tokenizeLoopF vm fuel (pos + text.length) rest
        else (tokenizeLoopF vm fuel (pos + text.length) rest).map
          (fun ts => Token.mk k (tokenValue k text) :: ts) := rfl

theorem findMatch_rest_lt (vm : VariableMatcher) {s : List Char} {k text rest}
    (h : findMatch vm s = some (k, text, rest)) : rest.length < s.length := by
  obtain ⟨hsplit, hne⟩ := findMatch_sound vm h
  rw [hsplit, List.length_append]
  cases text with
  | nil => exact absurd rfl hne
  | cons a as => simp

theorem tokenizeLoopF_fuel (vm : VariableMatcher) :
    ∀ n m pos s, s.length ≤ n → s.length ≤ m →
      tokenizeLoopF vm n pos s = tokenizeLoopF vm m pos s := by
  intro n
  induction n using Nat.strong_induction_on with
  | _ n ih =>
    intro m pos s hn hm
    cases s with
    | nil => cases n <;> cases m <;> rfl
    | cons c cs =>
      have hn1 : 0 < n := lt_of_lt_of_le (by simp) hn
      have hm1 : 0 < m := lt_of_lt_of_le (by simp) hm
      obtain ⟨n', rfl⟩ : ∃ n', n = n' + 1 := ⟨n - 1, by omega⟩
      obtain ⟨m', rfl⟩ : ∃ m', m = m' + 1 := ⟨m - 1, by omega⟩
      rw [tokenizeLoopF_succ, tokenizeLoopF_succ]
      cases hfm : findMatch vm (c :: cs) with
      | none => rfl
      | some ktr =>
        obtain ⟨k, text, rest⟩ := ktr
        have hrest : rest.length < (c :: cs).length := findMatch_rest_lt vm hfm
        have hrec : tokenizeLoopF vm n' (pos + text.length) rest =
            tokenizeLoopF vm m' (pos + text.length) rest := by
          refine ih n' (by omega) m' (pos + text.length) rest ?_ ?_
          · simp at hrest hn; omega
          · simp at hrest hm; omega
        by_cases hk : k = TokenType.WHITESPACE <;> simp [hk, hrec]

theorem tokenizeCore_cons (vm : VariableMatcher) (pos : Nat) (c : Char) (cs : List Char) :
    tokenizeCore vm pos (c :: cs) =
      match findMatch vm (c :: cs) with
      | none =>
        .error ("Token error " ++ toString pos ++ ": \"" ++
          String.mk ((c :: cs).take 10) ++ "...\"")
      | some (k, text, rest) =>
        if k = TokenType.WHITESPACE then tokenizeCore vm (pos + text.length) rest
        else (tokenizeCore vm (pos + text.length) rest).map
          (fun ts => Token.mk k (tokenValue k text) :: ts) := by
  show tokenizeLoopF vm (cs.length + 1) pos (c :: cs) = _
  rw [tokenizeLoopF_succ]
  cases hfm : findMatch vm (c :: cs) with
  | none => rfl
  | some ktr =>
    obtain ⟨k, text, rest⟩ := ktr
    have hrest : rest.length < (c :: cs).length := findMatch_rest_lt vm hfm
    have hrec : tokenizeLoopF vm cs.length (pos + text.length) rest =
        tokenizeCore vm (pos + text.length) rest := by
      apply tokenizeLoopF_fuel
      · simp at hrest; omega
      · rfl
    by_cases hk : k = TokenType.WHITESPACE <;> simp [hk, hrec]

theorem tokenizeCore_of_findMatch_ws (vm : VariableMatcher) {s text rest} (pos : Nat)
    (h : findMatch vm s = some (.WHITESPACE, text, rest)) :
    tokenizeCore vm pos s = tokenizeCore vm (pos + text.length) rest := by
  obtain ⟨hsplit, hne⟩ := findMatch_sound vm h
  cases s with
  | nil =>
    cases text with
    | nil => exact absurd rfl hne
    | cons a as => simp at hsplit
  | cons c cs =>
    rw [tokenizeCore_cons, h]
    simp

theorem tokenizeCore_of_findMatch_tok (vm : VariableMatcher) {s k text rest} (pos : Nat)
    (h : findMatch vm s = some (k, text, rest)) (hk : k ≠ .WHITESPACE) :
    tokenizeCore vm pos s =
      (tokenizeCore vm (pos + text.length) rest).map
        (fun ts => Token.mk k (tokenValue k text) :: ts) := by
  obtain ⟨hsplit, hne⟩ := findMatch_sound vm h
  cases s with
  | nil =>
    cases text with
    | nil => exact absurd rfl hne
    | cons a as => simp at hsplit
  | cons c cs =>
    rw [tokenizeCore_cons, h]
    simp [hk]

theorem tokenizeCore_of_findMatch_none (vm : VariableMatcher) {s} (pos : Nat)
    (hs : s ≠ []) (h : findMatch vm s = none) :
    tokenizeCore vm pos s = .error ("Token error " ++ toString pos ++ ": \"" ++
      String.mk (s.take 10) ++ "...\"") := by
  cases s with
  | nil => exact absurd rfl hs
  | cons c cs => rw [tokenizeCore_cons, h]

/-! ### The AST and the recursive-descent parser -/

/-- AST nodes: `Literal`-style leaves (`{type:"Number"|"String"|"Boolean"|"VARIABLE", value}`)
and `BinaryExpression` internal nodes.  The source stores
`parseFloat(token.value)` in a `Number` leaf; the leaf here keeps the matched
numeral text, which determines that value — no claim depends on
floating-point rounding. -/
inductive Expr where
  | num (value : String)
  | str (value : String)
  | bool (value : Bool)
  | var (value : String)
  | binary (operator : TokenType) (left right : Expr)
deriving DecidableEq, Repr

/-- The structured result of `parseExpression`:
`{valid:true, ast}` or `{valid:false, error}`. -/
inductive ParseResult where
  | valid (ast : Expr)
  | invalid (error : String)
deriving DecidableEq, Repr

/-- The grammar rule (or loop state) a `parseStep` call is executing:
`expr`/`comparison`/`equality`/`relational`/`primary` are the source's five
mutually recursive functions; `compLoop`/`eqLoop`/`relLoop` are their
accumulation `while` loops, carrying the current left operand. -/
inductive PRule where
  | expr
  | comparison
  | compLoop (left : Expr)
  | equality
  | eqLoop (left : Expr)
  | relational
  | relLoop (left : Expr)
  | primary
deriving DecidableEq, Repr

/-- The recursive-descent parser as a single fuel-indexed step function; each
constructor case transcribes the corresponding source function, with the
token-position cursor represented by returning the unconsumed suffix.  The
fuel only bounds the call depth; `parseStep_fuel` shows any sufficiently large
fuel gives the same result, so the fuel-exhaustion branch is unreachable from
`runRule`. -/
def parseStep : Nat → PRule → List Token → Except String (Expr × List Token)
  | 0, _, _ => .error "parser fuel exhausted"
  | n + 1, .expr, ts => parseStep n .comparison ts
  | n + 1, .comparison, ts =>
    match parseStep n .equality ts with
    | .error e => .error e
    | .ok (l, r) => parseStep n (.compLoop l) r
  | n + 1, .compLoop l, ts =>
    match ts with
    | [] => .ok (l, [])
    | t :: rest =>
      if t.type = .AND then
        match parseStep n .equality rest with
        | .error e => .error e
        | .ok (rt, r) => parseStep n (.compLoop (.binary t.type l rt)) r
      else .ok (l, t :: rest)
  | n + 1, .equality, ts =>
    match parseStep n .relational ts with
    | .error e => .error e
    | .ok (l, r) => parseStep n (.eqLoop l) r
  | n + 1, .eqLoop l, ts =>
    match ts with
    | [] => .ok (l, [])
    | t :: rest =>
      if t.type = .EQ || t.type = .NEQ then
        match parseStep n .relational rest with
        | .error e => .error e
        | .ok (rt, r) => parseStep n (.eqLoop (.binary t.type l rt)) r
      else .ok (l, t :: rest)
  | n + 1, .relational, ts =>
    match parseStep n .primary ts with
    | .error e => .error e
    | .ok (l, r) => parseStep n (.relLoop l) r
  | n + 1, .relLoop l, ts =>
    match ts with
    | [] => .ok (l, [])
    | t :: rest =>
      if t.type = .LT || t.type = .LTE || t.type = .GT || t.type = .GTE then
        match parseStep n .primary rest with
        | .error e => .error e
        | .ok (rt, r) => parseStep n (.relLoop (.binary t.type l rt)) r
      else .ok (l, t :: rest)
  | n + 1, .primary, ts =>
    match ts with
    | [] => .error "Unexpected end of input"
    | t :: rest =>
      if t.type = .LPAREN then
        match parseStep n .expr rest with
        | .error e => .error e
        | .ok (e, r) =>
          match r with
          | r0 :: r' =>
            if r0.type = .RPAREN then .ok (e, r')
            else .error "Expected closing parenthesis"
          | [] => .error "Expected closing parenthesis"
      else
        match t.type with
        | .NUMBER => .ok (.num t.value, rest)
        | .STRING => .ok (.str t.value, rest)
        | .BOOLEAN => .ok (.bool (t.value = "true"), rest)
        | .VARIABLE => .ok (.var t.value, rest)
        | k => .error ("Unexpected token: " ++ typeName k)

/-- Fuel budget per rule for the sufficiency bound `6 * ts.length + rank < fuel`. -/
def rank : PRule → Nat
  | .primary => 1
  | .relational => 2
  | .relLoop _ => 2
  | .equality => 3
  | .eqLoop _ => 3
  | .comparison => 4
  | .compLoop _ => 4
  | .expr => 5

/-- Run a grammar rule with canonical (sufficient) fuel. -/
def runRule (r : PRule) (ts : List Token) : Except String (Expr × List Token) :=
  parseStep (6 * ts.length + 6) r ts

/-- `parseExpr` of the source (returns the node and the unconsumed suffix). -/
def parseExpr (ts : List Token) : Except String (Expr × List Token) := runRule .expr ts

/-- `parseComparison` of the source. -/
def parseComparison (ts : List Token) : Except String (Expr × List Token) :=
  runRule .comparison ts

/-- `parseEquality` of the source. -/
def parseEquality (ts : List Token) : Except String (Expr × List Token) :=
  runRule .equality ts

/-- `parseRelational` of the source. -/
def parseRelational (ts : List Token) : Except String (Expr × List Token) :=
  runRule .relational ts

/-- `parsePrimary` of the source. -/
def parsePrimary (ts : List Token) : Except String (Expr × List Token) :=
  runRule .primary ts

/-- The inner `parse()` of `parseExpression`: empty-token check, one full
expression, trailing-token check; the `try/catch` is modelled by returning the
structured `ParseResult`. -/
def parse (tokens : List Token) : ParseResult :=
  match tokens with
  | [] => .invalid "Input vuoto"
  | _ :: _ =>
    match parseExpr tokens with
    | .ok (ast, []) => .valid ast
    | .ok (_, t :: _) =>
      .invalid ("Unxpected token after the end of expression: " ++ typeName t.type)
    | .error e => .invalid e

/-- `export function parseExpression(input)`: trim, tokenize (outside any
`try`, so a lexer `Error` propagates to the caller — modelled by
`Except.error`), then the guarded `parse()`. -/
def parseExpression (input : String) : Except String ParseResult :=
  match tokenize (jsTrim input) with
  | .ok ts => .ok (parse ts)
  | .error e => .error e

/-- Modelled from the spec: `createParser(matcherConfig)` is missing from
`src/` (only `create-parser.test.ts` imports it); per the spec it is "a
convenience closure binding one matcher configuration" returning the "same
result shape as `parseExpression`", whose top-level entry catches all internal
failures into `{valid:false, error}`. -/
def createParser (vm : VariableMatcher) : String → ParseResult :=
  fun input =>
    match tokenizeWith vm (jsTrim input) with
    | .ok ts => parse ts
    | .error e => .invalid e

/-- ASCII lowercase, the `[a-z]` class of the test-suite's custom pattern. -/
def asciiLower (c : Char) : Bool := 'a' ≤ c && c ≤ 'z'

/-- The custom variable pattern `/custom_[a-z]+\b/y` from the repository's
`create-parser.test.ts`.  (Shrinking the greedy `[a-z]+` run can never repair
a failing `\b`, since the following character would be a lowercase letter.) -/
def matchCustomVar (s : List Char) : Option (List Char × List Char) :=
  match startsWith "custom_".data s with
  | some r1 =>
    let ls := r1.takeWhile asciiLower
    if ls.isEmpty then none
    else if boundaryAfter (r1.dropWhile asciiLower) then
      some ("custom_".data ++ ls, r1.dropWhile asciiLower)
    else none
  | none => none

theorem matchCustomVar_sound : MatcherSound matchCustomVar := by
  intro s t r h
  simp only [matchCustomVar] at h
  split at h
  · rename_i r1 hp
    have hsplit := List.takeWhile_append_dropWhile asciiLower r1
    split at h
    · simp at h
    · split at h
      · simp only [Option.some.injEq, Prod.mk.injEq] at h
        obtain ⟨rfl, rfl⟩ := h
        refine ⟨?_, by simp⟩
        rw [startsWith_sound _ _ _ hp, ← hsplit]
        simp
      · simp at h
  · simp at h

/-- The custom matcher configuration used by the `createParser` tests. -/
def customVariableMatcher : VariableMatcher := ⟨matchCustomVar, matchCustomVar_sound⟩

/-! ### Unfolding equations for `parseStep` -/

theorem parseStep_succ_expr (n : Nat) (ts : List Token) :
    parseStep (n + 1) .expr ts = parseStep n .comparison ts := rfl

theorem parseStep_succ_comparison (n : Nat) (ts : List Token) :
    parseStep (n + 1) .comparison ts =
      match parseStep n .equality ts with
      | .error e => .error e
      | .ok (l, r) => parseStep n (.compLoop l) r := rfl

theorem parseStep_succ_compLoop_nil (n : Nat) (l : Expr) :
    parseStep (n + 1) (.compLoop l) [] = .ok (l, []) := rfl

theorem parseStep_succ_compLoop_cons (n : Nat) (l : Expr) (t : Token) (rest : List Token) :
    parseStep (n + 1) (.compLoop l) (t :: rest) =
      if t.type = .AND then
        match parseStep n .equality rest with
        | .error e => .error e
        | .ok (rt, r) => parseStep n (.compLoop (.binary t.type l rt)) r
      else .ok (l, t :: rest) := rfl

theorem parseStep_succ_equality (n : Nat) (ts : List Token) :
    parseStep (n + 1) .equality ts =
      match parseStep n .relational ts with
      | .error e => .error e
      | .ok (l, r) => parseStep n (.eqLoop l) r := rfl

theorem parseStep_succ_eqLoop_nil (n : Nat) (l : Expr) :
    parseStep (n + 1) (.eqLoop l) [] = .ok (l, []) := rfl

theorem parseStep_succ_eqLoop_cons (n : Nat) (l : Expr) (t : Token) (rest : List Token) :
    parseStep (n + 1) (.eqLoop l) (t :: rest) =
      if t.type = .EQ || t.type = .NEQ then
        match parseStep n .relational rest with
        | .error e => .error e
        | .ok (rt, r) => parseStep n (.eqLoop (.binary t.type l rt)) r
      else .ok (l, t :: rest) := rfl

theorem parseStep_succ_relational (n : Nat) (ts : List Token) :
    parseStep (n + 1) .relational ts =
      match parseStep n .primary ts with
      | .error e => .error e
      | .ok (l, r) => parseStep n (.relLoop l) r := rfl

theorem parseStep_succ_relLoop_nil (n : Nat) (l : Expr) :
    parseStep (n + 1) (.relLoop l) [] = .ok (l, []) := rfl

theorem parseStep_succ_relLoop_cons (n : Nat) (l : Expr) (t : Token) (rest : List Token) :
    parseStep (n + 1) (.relLoop l) (t :: rest) =
      if t.type = .LT || t.type = .LTE || t.type = .GT || t.type = .GTE then
        match parseStep n .primary rest with
        | .error e => .error e
        | .ok (rt, r) => parseStep n (.relLoop (.binary t.type l rt)) r
      else .ok (l, t :: rest) := rfl

theorem parseStep_succ_primary_nil (n : Nat) :
    parseStep (n + 1) .primary [] = .error "Unexpected end of input" := rfl

theorem parseStep_succ_primary_cons (n : Nat) (t : Token) (rest : List Token) :
    parseStep (n + 1) .primary (t :: rest) =
      if t.type = .LPAREN then
        match parseStep n .expr rest with
        | .error e => .error e
        | .ok (e, r) =>
          match r with
          | r0 :: r' =>
            if r0.type = .RPAREN then .ok (e, r')
            else .error "Expected closing parenthesis"
          | [] => .error "Expected closing parenthesis"
      else
        match t.type with
        | .NUMBER => .ok (.num t.value, rest)
        | .STRING => .ok (.str t.value, rest)
        | .BOOLEAN => .ok (.bool (t.value = "true"), rest)
        | .VARIABLE => .ok (.var t.value, rest)
        | k => .error ("Unexpected token: " ++ typeName k) := rfl

/-! ### Consumption: a successful rule never grows the token stream, and the
non-loop rules consume at least one token -/

/-- Minimum number of tokens a successful run of a rule consumes. -/
def ruleMin : PRule → Nat
  | .compLoop _ => 0
  | .eqLoop _ => 0
  | .relLoop _ => 0
  | _ => 1

theorem parseStep_rest :
    ∀ n r ts e rest, parseStep n r ts = .ok (e, rest) →
      rest.length + ruleMin r ≤ ts.length := by
  intro n
  induction n with
  | zero => intro r ts e rest h; simp [parseStep] at h
  | succ n ih =>
    intro r ts e rest h
    cases r with
    | expr =>
      rw [parseStep_succ_expr] at h
      simpa [ruleMin] using ih _ _ _ _ h
    | comparison =>
      rw [parseStep_succ_comparison] at h
      split at h
      · simp at h
      · rename_i l r1 heq
        have h1 := ih _ _ _ _ heq
        have h2 := ih _ _ _ _ h
        simp [ruleMin] at h1 h2 ⊢
        omega
    | compLoop l =>
      rw [show parseStep (n+1) (PRule.compLoop l) ts =
          (match ts with
           | [] => .ok (l, [])
           | t :: rest =>
             if t.type = .AND then
               match parseStep n .equality rest with
               | .error e => .error e
               | .ok (rt, r) => parseStep n (.compLoop (.binary t.type l rt)) r
             else .ok (l, t :: rest)) from by cases ts <;> rfl] at h
      split at h
      · simp at h
        obtain ⟨rfl, rfl⟩ := h
        simp [ruleMin]
      · rename_i t rest0
        split at h
        · split at h
          · simp at h
          · rename_i rt r1 heq
            have h1 := ih _ _ _ _ heq
            have h2 := ih _ _ _ _ h
            simp [ruleMin] at h1 h2 ⊢
            omega
        · simp at h
          obtain ⟨rfl, rfl⟩ := h
          simp [ruleMin]
    | equality =>
      rw [parseStep_succ_equality] at h
      split at h
      · simp at h
      · rename_i l r1 heq
        have h1 := ih _ _ _ _ heq
        have h2 := ih _ _ _ _ h
        simp [ruleMin] at h1 h2 ⊢
        omega
    | eqLoop l =>
      rw [show parseStep (n+1) (PRule.eqLoop l) ts =
          (match ts with
           | [] => .ok (l, [])
           | t :: rest =>
             if t.type = .EQ || t.type = .NEQ then
               match parseStep n .relational rest with
               | .error e => .error e
               | .ok (rt, r) => parseStep n (.eqLoop (.binary t.type l rt)) r
             else .ok (l, t :: rest)) from by cases ts <;> rfl] at h
      split at h
      · simp at h
        obtain ⟨rfl, rfl⟩ := h
        simp [ruleMin]
      · rename_i t rest0
        split at h
        · split at h
          · simp at h
          · rename_i rt r1 heq
            have h1 := ih _ _ _ _ heq
            have h2 := ih _ _ _ _ h
            simp [ruleMin] at h1 h2 ⊢
            omega
        · simp at h
          obtain ⟨rfl, rfl⟩ := h
          simp [ruleMin]
    | relational =>
      rw [parseStep_succ_relational] at h
      split at h
      · simp at h
      · rename_i l r1 heq
        have h1 := ih _ _ _ _ heq
        have h2 := ih _ _ _ _ h
        simp [ruleMin] at h1 h2 ⊢
        omega
    | relLoop l =>
      rw [show parseStep (n+1) (PRule.relLoop l) ts =
          (match ts with
           | [] => .ok (l, [])
           | t :: rest =>
             if t.type = .LT || t.type = .LTE || t.type = .GT || t.type = .GTE then
               match parseStep n .primary rest with
               | .error e => .error e
               | .ok (rt, r) => parseStep n (.relLoop (.binary t.type l rt)) r
             else .ok (l, t :: rest)) from by cases ts <;> rfl] at h
      split at h
      · simp at h
        obtain ⟨rfl, rfl⟩ := h
        simp [ruleMin]
      · rename_i t rest0
        split at h
        · split at h
          · simp at h
          · rename_i rt r1 heq
            have h1 := ih _ _ _ _ heq
            have h2 := ih _ _ _ _ h
            simp [ruleMin] at h1 h2 ⊢
            omega
        · simp at h
          obtain ⟨rfl, rfl⟩ := h
          simp [ruleMin]
    | primary =>
      rw [show parseStep (n+1) PRule.primary ts =
          (match ts with
           | [] => .error "Unexpected end of input"
           | t :: rest =>
             if t.type = .LPAREN then
               match parseStep n .expr rest with
               | .error e => .error e
               | .ok (e, r) =>
                 match r with
                 | r0 :: r' =>
                   if r0.type = .RPAREN then .ok (e, r')
                   else .error "Expected closing parenthesis"
                 | [] => .error "Expected closing parenthesis"
             else
               match t.type with
               | .NUMBER => .ok (.num t.value, rest)
               | .STRING => .ok (.str t.value, rest)
               | .BOOLEAN => .ok (.bool (t.value = "true"), rest)
               | .VARIABLE => .ok (.var t.value, rest)
               | k => .error ("Unexpected token: " ++ typeName k)) from by cases ts <;> rfl] at h
      split at h
      · simp at h
      · rename_i t rest0
        split at h
        · split at h
          · simp at h
          · rename_i e0 r1 heq
            have h1 := ih _ _ _ _ heq
            split at h
            · rename_i r0 r2
              split at h
              · simp at h
                obtain ⟨rfl, rfl⟩ := h
                simp [ruleMin] at h1 ⊢
                omega
              · simp at h
            · simp at h
        · split at h <;> simp at h <;>
            (try (obtain ⟨rfl, rfl⟩ := h; simp [ruleMin]))

/-! ### Fuel irrelevance: any sufficient fuel computes the same result -/

theorem parseStep_fuel :
    ∀ n m r ts, 6 * ts.length + rank r < n → 6 * ts.length + rank r < m →
      parseStep n r ts = parseStep m r ts := by
  intro n
  induction n using Nat.strong_induction_on with
  | _ n ih =>
    intro m r ts hn hm
    obtain ⟨n', rfl⟩ : ∃ k, n = k + 1 := ⟨n - 1, by omega⟩
    obtain ⟨m', rfl⟩ : ∃ k, m = k + 1 := ⟨m - 1, by omega⟩
    cases r with
    | expr =>
      rw [parseStep_succ_expr, parseStep_succ_expr]
      refine ih n' (by omega) m' .comparison ts ?_ ?_ <;>
        (simp [rank] at hn hm ⊢; omega)
    | comparison =>
      rw [parseStep_succ_comparison, parseStep_succ_comparison]
      have he : parseStep n' .equality ts = parseStep m' .equality ts := by
        refine ih n' (by omega) m' .equality ts ?_ ?_ <;>
          (simp [rank] at hn hm ⊢; omega)
      rw [he]
      cases hq : parseStep m' .equality ts with
      | error e => rfl
      | ok pr =>
        obtain ⟨l, r1⟩ := pr
        have hr1 := parseStep_rest m' .equality ts l r1 hq
        refine ih n' (by omega) m' (.compLoop l) r1 ?_ ?_ <;>
          (simp [rank, ruleMin] at hn hm hr1 ⊢; omega)
    | compLoop l =>
      cases ts with
      | nil => rw [parseStep_succ_compLoop_nil, parseStep_succ_compLoop_nil]
      | cons t rest =>
        rw [parseStep_succ_compLoop_cons, parseStep_succ_compLoop_cons]
        by_cases hAnd : t.type = TokenType.AND
        · rw [if_pos hAnd, if_pos hAnd]
          have he : parseStep n' .equality rest = parseStep m' .equality rest := by
            refine ih n' (by omega) m' .equality rest ?_ ?_ <;>
              (simp [rank] at hn hm ⊢; omega)
          rw [he]
          cases hq : parseStep m' .equality rest with
          | error e => rfl
          | ok pr =>
            obtain ⟨rt, r1⟩ := pr
            have hr1 := parseStep_rest m' .equality rest rt r1 hq
            refine ih n' (by omega) m' (.compLoop (.binary t.type l rt)) r1 ?_ ?_ <;>
              (simp [rank, ruleMin] at hn hm hr1 ⊢; omega)
        · rw [if_neg hAnd, if_neg hAnd]
    | equality =>
      rw [parseStep_succ_equality, parseStep_succ_equality]
      have he : parseStep n' .relational ts = parseStep m' .relational ts := by
        refine ih n' (by omega) m' .relational ts ?_ ?_ <;>
          (simp [rank] at hn hm ⊢; omega)
      rw [he]
      cases hq : parseStep m' .relational ts with
      | error e => rfl
      | ok pr =>
        obtain ⟨l, r1⟩ := pr
        have hr1 := parseStep_rest m' .relational ts l r1 hq
        refine ih n' (by omega) m' (.eqLoop l) r1 ?_ ?_ <;>
          (simp [rank, ruleMin] at hn hm hr1 ⊢; omega)
    | eqLoop l =>
      cases ts with
      | nil => rw [parseStep_succ_eqLoop_nil, parseStep_succ_eqLoop_nil]
      | cons t rest =>
        rw [parseStep_succ_eqLoop_cons, parseStep_succ_eqLoop_cons]
        by_cases hop : (t.type = TokenType.EQ || t.type = TokenType.NEQ) = true
        · rw [if_pos hop, if_pos hop]
          have he : parseStep n' .relational rest = parseStep m' .relational rest := by
            refine ih n' (by omega) m' .relational rest ?_ ?_ <;>
              (simp [rank] at hn hm ⊢; omega)
          rw [he]
          cases hq : parseStep m' .relational rest with
          | error e => rfl
          | ok pr =>
            obtain ⟨rt, r1⟩ := pr
            have hr1 := parseStep_rest m' .relational rest rt r1 hq
            refine ih n' (by omega) m' (.eqLoop (.binary t.type l rt)) r1 ?_ ?_ <;>
              (simp [rank, ruleMin] at hn hm hr1 ⊢; omega)
        · rw [if_neg hop, if_neg hop]
    | relational =>
      rw [parseStep_succ_relational, parseStep_succ_relational]
      have he : parseStep n' .primary ts = parseStep m' .primary ts := by
        refine ih n' (by omega) m' .primary ts ?_ ?_ <;>
          (simp [rank] at hn hm ⊢; omega)
      rw [he]
      cases hq : parseStep m' .primary ts with
      | error e => rfl
      | ok pr =>
        obtain ⟨l, r1⟩ := pr
        have hr1 := parseStep_rest m' .primary ts l r1 hq
        refine ih n' (by omega) m' (.relLoop l) r1 ?_ ?_ <;>
          (simp [rank, ruleMin] at hn hm hr1 ⊢; omega)
    | relLoop l =>
      cases ts with
      | nil => rw [parseStep_succ_relLoop_nil, parseStep_succ_relLoop_nil]
      | cons t rest =>
        rw [parseStep_succ_relLoop_cons, parseStep_succ_relLoop_cons]
        by_cases hop : (t.type = TokenType.LT || t.type = TokenType.LTE ||
            t.type = TokenType.GT || t.type = TokenType.GTE) = true
        · rw [if_pos hop, if_pos hop]
          have he : parseStep n' .primary rest = parseStep m' .primary rest := by
            refine ih n' (by omega) m' .primary rest ?_ ?_ <;>
              (simp [rank] at hn hm ⊢; omega)
          rw [he]
          cases hq : parseStep m' .primary rest with
          | error e => rfl
          | ok pr =>
            obtain ⟨rt, r1⟩ := pr
            have hr1 := parseStep_rest m' .primary rest rt r1 hq
            refine ih n' (by omega) m' (.relLoop (.binary t.type l rt)) r1 ?_ ?_ <;>
              (simp [rank, ruleMin] at hn hm hr1 ⊢; omega)
        · rw [if_neg hop, if_neg hop]
    | primary =>
      cases ts with
      | nil => rw [parseStep_succ_primary_nil, parseStep_succ_primary_nil]
      | cons t rest =>
        rw [parseStep_succ_primary_cons, parseStep_succ_primary_cons]
        by_cases hp : t.type = TokenType.LPAREN
        · rw [if_pos hp, if_pos hp]
          have he : parseStep n' .expr rest = parseStep m' .expr rest := by
            refine ih n' (by omega) m' .expr rest ?_ ?_ <;>
              (simp [rank] at hn hm ⊢; omega)
          rw [he]
        · rw [if_neg hp, if_neg hp]

/-! ### Canonical-fuel equations: `runRule` satisfies the source's recursive
definitions literally -/

theorem rank_lt_six (r : PRule) : rank r < 6 := by cases r <;> simp [rank]

theorem parseStep_eq_runRule {n : Nat} (r : PRule) (ts : List Token)
    (h : 6 * ts.length + rank r < n) : parseStep n r ts = runRule r ts :=
  parseStep_fuel n (6 * ts.length + 6) r ts h (by have := rank_lt_six r; omega)

theorem runRule_rest {r : PRule} {ts : List Token} {e : Expr} {rest : List Token}
    (h : runRule r ts = .ok (e, rest)) : rest.length + ruleMin r ≤ ts.length :=
  parseStep_rest _ _ _ _ _ h

theorem runRule_expr (ts : List Token) : runRule .expr ts = runRule .comparison ts := by
  show parseStep (6 * ts.length + 6) .expr ts = _
  rw [show 6 * ts.length + 6 = (6 * ts.length + 5) + 1 by omega, parseStep_succ_expr]
  exact parseStep_eq_runRule .comparison ts (by simp [rank])

theorem runRule_comparison (ts : List Token) :
    runRule .comparison ts =
      match runRule .equality ts with
      | .error e => .error e
      | .ok (l, r) => runRule (.compLoop l) r := by
  show parseStep (6 * ts.length + 6) .comparison ts = _
  rw [show 6 * ts.length + 6 = (6 * ts.length + 5) + 1 by omega, parseStep_succ_comparison]
  rw [parseStep_eq_runRule .equality ts (by simp [rank])]
  cases hq : runRule .equality ts with
  | error e => rfl
  | ok pr =>
    obtain ⟨l, r⟩ := pr
    have hr := runRule_rest hq
    exact parseStep_eq_runRule (.compLoop l) r (by simp [rank, ruleMin] at hr ⊢; omega)

theorem runRule_compLoop_nil (l : Expr) : runRule (.compLoop l) [] = .ok (l, []) := rfl

theorem runRule_compLoop_cons (l : Expr) (t : Token) (rest : List Token) :
    runRule (.compLoop l) (t :: rest) =
      if t.type = .AND then
        match runRule .equality rest with
        | .error e => .error e
        | .ok (rt, r) => runRule (.compLoop (.binary t.type l rt)) r
      else .ok (l, t :: rest) := by
  show parseStep (6 * (t :: rest).length + 6) _ _ = _
  rw [show 6 * (t :: rest).length + 6 = (6 * rest.length + 11) + 1 by simp; omega,
    parseStep_succ_compLoop_cons]
  by_cases hAnd : t.type = TokenType.AND
  · rw [if_pos hAnd, if_pos hAnd]
    rw [parseStep_eq_runRule .equality rest (by simp only [rank]; omega)]
    cases hq : runRule .equality rest with
    | error e => rfl
    | ok pr =>
      obtain ⟨rt, r⟩ := pr
      have hr := runRule_rest hq
      exact parseStep_eq_runRule (.compLoop (.binary t.type l rt)) r
        (by simp [rank, ruleMin] at hr ⊢; omega)
  · rw [if_neg hAnd, if_neg hAnd]

theorem runRule_equality (ts : List Token) :
    runRule .equality ts =
      match runRule .relational ts with
      | .error e => .error e
      | .ok (l, r) => runRule (.eqLoop l) r := by
  show parseStep (6 * ts.length + 6) .equality ts = _
  rw [show 6 * ts.length + 6 = (6 * ts.length + 5) + 1 by omega, parseStep_succ_equality]
  rw [parseStep_eq_runRule .relational ts (by simp [rank])]
  cases hq : runRule .relational ts with
  | error e => rfl
  | ok pr =>
    obtain ⟨l, r⟩ := pr
    have hr := runRule_rest hq
    exact parseStep_eq_runRule (.eqLoop l) r (by simp [rank, ruleMin] at hr ⊢; omega)

theorem runRule_eqLoop_nil (l : Expr) : runRule (.eqLoop l) [] = .ok (l, []) := rfl

theorem runRule_eqLoop_cons (l : Expr) (t : Token) (rest : List Token) :
    runRule (.eqLoop l) (t :: rest) =
      if t.type = .EQ || t.type = .NEQ then
        match runRule .relational rest with
        | .error e => .error e
        | .ok (rt, r) => runRule (.eqLoop (.binary t.type l rt)) r
      else .ok (l, t :: rest) := by
  show parseStep (6 * (t :: rest).length + 6) _ _ = _
  rw [show 6 * (t :: rest).length + 6 = (6 * rest.length + 11) + 1 by simp; omega,
    parseStep_succ_eqLoop_cons]
  by_cases hop : (t.type = TokenType.EQ || t.type = TokenType.NEQ) = true
  · rw [if_pos hop, if_pos hop]
    rw [parseStep_eq_runRule .relational rest (by simp only [rank]; omega)]
    cases hq : runRule .relational rest with
    | error e => rfl
    | ok pr =>
      obtain ⟨rt, r⟩ := pr
      have hr := runRule_rest hq
      exact parseStep_eq_runRule (.eqLoop (.binary t.type l rt)) r
        (by simp [rank, ruleMin] at hr ⊢; omega)
  · rw [if_neg hop, if_neg hop]

theorem runRule_relational (ts : List Token) :
    runRule .relational ts =
      match runRule .primary ts with
      | .error e => .error e
      | .ok (l, r) => runRule (.relLoop l) r := by
  show parseStep (6 * ts.length + 6) .relational ts = _
  rw [show 6 * ts.length + 6 = (6 * ts.length + 5) + 1 by omega, parseStep_succ_relational]
  rw [parseStep_eq_runRule .primary ts (by simp [rank])]
  cases hq : runRule .primary ts with
  | error e => rfl
  | ok pr =>
    obtain ⟨l, r⟩ := pr
    have hr := runRule_rest hq
    exact parseStep_eq_runRule (.relLoop l) r (by simp [rank, ruleMin] at hr ⊢; omega)

theorem runRule_relLoop_nil (l : Expr) : runRule (.relLoop l) [] = .ok (l, []) := rfl

theorem runRule_relLoop_cons (l : Expr) (t : Token) (rest : List Token) :
    runRule (.relLoop l) (t :: rest) =
      if t.type = .LT || t.type = .LTE || t.type = .GT || t.type = .GTE then
        match runRule .primary rest with
        | .error e => .error e
        | .ok (rt, r) => runRule (.relLoop (.binary t.type l rt)) r
      else .ok (l, t :: rest) := by
  show parseStep (6 * (t :: rest).length + 6) _ _ = _
  rw [show 6 * (t :: rest).length + 6 = (6 * rest.length + 11) + 1 by simp; omega,
    parseStep_succ_relLoop_cons]
  by_cases hop : (t.type = TokenType.LT || t.type = TokenType.LTE ||
      t.type = TokenType.GT || t.type = TokenType.GTE) = true
  · rw [if_pos hop, if_pos hop]
    rw [parseStep_eq_runRule .primary rest (by simp only [rank]; omega)]
    cases hq : runRule .primary rest with
    | error e => rfl
    | ok pr =>
      obtain ⟨rt, r⟩ := pr
      have hr := runRule_rest hq
      exact parseStep_eq_runRule (.relLoop (.binary t.type l rt)) r
        (by simp [rank, ruleMin] at hr ⊢; omega)
  · rw [if_neg hop, if_neg hop]

theorem runRule_primary_nil : runRule .primary [] = .error "Unexpected end of input" := rfl

theorem runRule_primary_cons (t : Token) (rest : List Token) :
    runRule .primary (t :: rest) =
      if t.type = .LPAREN then
        match runRule .expr rest with
        | .error e => .error e
        | .ok (e, r) =>
          match r with
          | r0 :: r' =>
            if r0.type = .RPAREN then .ok (e, r')
            else .error "Expected closing parenthesis"
          | [] => .error "Expected closing parenthesis"
      else
        match t.type with
        | .NUMBER => .ok (.num t.value, rest)
        | .STRING => .ok (.str t.value, rest)
        | .BOOLEAN => .ok (.bool (t.value = "true"), rest)
        | .VARIABLE => .ok (.var t.value, rest)
        | k => .error ("Unexpected token: " ++ typeName k) := by
  show parseStep (6 * (t :: rest).length + 6) _ _ = _
  rw [show 6 * (t :: rest).length + 6 = (6 * rest.length + 11) + 1 by simp; omega,
    parseStep_succ_primary_cons]
  by_cases hp : t.type = TokenType.LPAREN
  · rw [if_pos hp, if_pos hp]
    rw [parseStep_eq_runRule .expr rest (by simp only [rank]; omega)]
  · rw [if_neg hp, if_neg hp]

/-! ### Appending unconsumable tokens does not disturb a successful parse -/

/-- The token kinds that could extend a fully consumed run of a rule (the
operators some still-active accumulation loop of that rule would consume). -/
def extOps : PRule → List TokenType
  | .expr => [.AND, .EQ, .NEQ, .LT, .LTE, .GT, .GTE]
  | .comparison => [.AND, .EQ, .NEQ, .LT, .LTE, .GT, .GTE]
  | .compLoop _ => [.AND, .EQ, .NEQ, .LT, .LTE, .GT, .GTE]
  | .equality => [.EQ, .NEQ, .LT, .LTE, .GT, .GTE]
  | .eqLoop _ => [.EQ, .NEQ, .LT, .LTE, .GT, .GTE]
  | .relational => [.LT, .LTE, .GT, .GTE]
  | .relLoop _ => [.LT, .LTE, .GT, .GTE]
  | .primary => []

theorem runRule_append :
    ∀ n ts r u e rest, 6 * ts.length + rank r ≤ n →
      runRule r ts = .ok (e, rest) →
      (rest = [] → ∀ t0 us, u = t0 :: us → t0.type ∉ extOps r) →
      runRule r (ts ++ u) = .ok (e, rest ++ u) := by
  intro n
  induction n using Nat.strong_induction_on with
  | _ n ih =>
    intro ts r u e rest hn h hstop
    cases r with
    | expr =>
      rw [runRule_expr] at h ⊢
      refine ih (6 * ts.length + 4) (by simp [rank] at hn; omega) ts .comparison u e rest
        (by simp [rank]) h ?_
      intro hrest t0 us hu
      exact hstop hrest t0 us hu
    | comparison =>
      rw [runRule_comparison] at h
      rw [runRule_comparison]
      cases hq : runRule .equality ts with
      | error e0 => rw [hq] at h; simp at h
      | ok pr =>
        obtain ⟨l, r1⟩ := pr
        rw [hq] at h
        simp only [] at h
        have hr1 := runRule_rest hq
        have hstep : runRule .equality (ts ++ u) = .ok (l, r1 ++ u) := by
          refine ih (6 * ts.length + 3) (by simp [rank] at hn; omega) ts .equality u l r1
            (by simp [rank]) hq ?_
          intro hr1nil t0 us hu hmem
          have hrest : rest = [] := by
            rw [hr1nil, runRule_compLoop_nil] at h
            simp at h
            exact h.2
          exact hstop hrest t0 us hu (by simp [extOps] at hmem ⊢; tauto)
        rw [hstep]
        refine ih (6 * r1.length + 4) ?_ r1 (.compLoop l) u e rest (by simp [rank]) h ?_
        · simp [rank, ruleMin] at hn hr1 ⊢; omega
        · intro hrest t0 us hu hmem
          exact hstop hrest t0 us hu (by simp [extOps] at hmem ⊢; tauto)
    | compLoop l =>
      cases ts with
      | nil =>
        rw [runRule_compLoop_nil] at h
        simp at h
        obtain ⟨rfl, rfl⟩ := h
        cases u with
        | nil => simpa using runRule_compLoop_nil l
        | cons t0 us =>
          have hne := hstop rfl t0 us rfl
          simp [extOps] at hne
          rw [List.nil_append, runRule_compLoop_cons, if_neg hne.1]
      | cons t rest0 =>
        rw [runRule_compLoop_cons] at h
        by_cases hAnd : t.type = TokenType.AND
        · rw [if_pos hAnd] at h
          cases hq : runRule .equality rest0 with
          | error e0 => rw [hq] at h; simp at h
          | ok pr =>
            obtain ⟨rt, r1⟩ := pr
            rw [hq] at h
            simp only [] at h
            have hr1 := runRule_rest hq
            have hstep : runRule .equality (rest0 ++ u) = .ok (rt, r1 ++ u) := by
              refine ih (6 * rest0.length + 3) (by simp [rank] at hn; omega) rest0 .equality u
                rt r1 (by simp [rank]) hq ?_
              intro hr1nil t0 us hu hmem
              have hrest : rest = [] := by
                rw [hr1nil, runRule_compLoop_nil] at h
                simp at h
                exact h.2
              exact hstop hrest t0 us hu (by simp [extOps] at hmem ⊢; tauto)
            show runRule (.compLoop l) (t :: (rest0 ++ u)) = _
            rw [runRule_compLoop_cons, if_pos hAnd, hstep]
            refine ih (6 * r1.length + 4) ?_ r1 (.compLoop (.binary t.type l rt)) u e rest
              (by simp [rank]) h ?_
            · simp [rank, ruleMin] at hn hr1 ⊢; omega
            · intro hrest t0 us hu hmem
              exact hstop hrest t0 us hu (by simp [extOps] at hmem ⊢; tauto)
        · rw [if_neg hAnd] at h
          simp at h
          obtain ⟨rfl, rfl⟩ := h
          show runRule (.compLoop l) (t :: (rest0 ++ u)) = _
          rw [runRule_compLoop_cons, if_neg hAnd]
          rfl
    | equality =>
      rw [runRule_equality] at h
      rw [runRule_equality]
      cases hq : runRule .relational ts with
      | error e0 => rw [hq] at h; simp at h
      | ok pr =>
        obtain ⟨l, r1⟩ := pr
        rw [hq] at h
        simp only [] at h
        have hr1 := runRule_rest hq
        have hstep : runRule .relational (ts ++ u) = .ok (l, r1 ++ u) := by
          refine ih (6 * ts.length + 2) (by simp [rank] at hn; omega) ts .relational u l r1
            (by simp [rank]) hq ?_
          intro hr1nil t0 us hu hmem
          have hrest : rest = [] := by
            rw [hr1nil, runRule_eqLoop_nil] at h
            simp at h
            exact h.2
          exact hstop hrest t0 us hu (by simp [extOps] at hmem ⊢; tauto)
        rw [hstep]
        refine ih (6 * r1.length + 3) ?_ r1 (.eqLoop l) u e rest (by simp [rank]) h ?_
        · simp [rank, ruleMin] at hn hr1 ⊢; omega
        · intro hrest t0 us hu hmem
          exact hstop hrest t0 us hu (by simp [extOps] at hmem ⊢; tauto)
    | eqLoop l =>
      cases ts with
      | nil =>
        rw [runRule_eqLoop_nil] at h
        simp at h
        obtain ⟨rfl, rfl⟩ := h
        cases u with
        | nil => simpa using runRule_eqLoop_nil l
        | cons t0 us =>
          have hne := hstop rfl t0 us rfl
          simp [extOps] at hne
          rw [List.nil_append, runRule_eqLoop_cons, if_neg (by simp [hne.1, hne.2.1])]
      | cons t rest0 =>
        rw [runRule_eqLoop_cons] at h
        by_cases hop : (t.type = TokenType.EQ || t.type = TokenType.NEQ) = true
        · rw [if_pos hop] at h
          cases hq : runRule .relational rest0 with
          | error e0 => rw [hq] at h; simp at h
          | ok pr =>
            obtain ⟨rt, r1⟩ := pr
            rw [hq] at h
            simp only [] at h
            have hr1 := runRule_rest hq
            have hstep : runRule .relational (rest0 ++ u) = .ok (rt, r1 ++ u) := by
              refine ih (6 * rest0.length + 2) (by simp [rank] at hn; omega) rest0 .relational u
                rt r1 (by simp [rank]) hq ?_
              intro hr1nil t0 us hu hmem
              have hrest : rest = [] := by
                rw [hr1nil, runRule_eqLoop_nil] at h
                simp at h
                exact h.2
              exact hstop hrest t0 us hu (by simp [extOps] at hmem ⊢; tauto)
            show runRule (.eqLoop l) (t :: (rest0 ++ u)) = _
            rw [runRule_eqLoop_cons, if_pos hop, hstep]
            refine ih (6 * r1.length + 3) ?_ r1 (.eqLoop (.binary t.type l rt)) u e rest
              (by simp [rank]) h ?_
            · simp [rank, ruleMin] at hn hr1 ⊢; omega
            · intro hrest t0 us hu hmem
              exact hstop hrest t0 us hu (by simp [extOps] at hmem ⊢; tauto)
        · rw [if_neg hop] at h
          simp at h
          obtain ⟨rfl, rfl⟩ := h
          show runRule (.eqLoop l) (t :: (rest0 ++ u)) = _
          rw [runRule_eqLoop_cons, if_neg hop]
          rfl
    | relational =>
      rw [runRule_relational] at h
      rw [runRule_relational]
      cases hq : runRule .primary ts with
      | error e0 => rw [hq] at h; simp at h
      | ok pr =>
        obtain ⟨l, r1⟩ := pr
        rw [hq] at h
        simp only [] at h
        have hr1 := runRule_rest hq
        have hstep : runRule .primary (ts ++ u) = .ok (l, r1 ++ u) := by
          refine ih (6 * ts.length + 1) (by simp [rank] at hn; omega) ts .primary u l r1
            (by simp [rank]) hq ?_
          intro hr1nil t0 us hu hmem
          simp [extOps] at hmem
        rw [hstep]
        refine ih (6 * r1.length + 2) ?_ r1 (.relLoop l) u e rest (by simp [rank]) h ?_
        · simp [rank, ruleMin] at hn hr1 ⊢; omega
        · intro hrest t0 us hu hmem
          exact hstop hrest t0 us hu (by simp [extOps] at hmem ⊢; tauto)
    | relLoop l =>
      cases ts with
      | nil =>
        rw [runRule_relLoop_nil] at h
        simp at h
        obtain ⟨rfl, rfl⟩ := h
        cases u with
        | nil => simpa using runRule_relLoop_nil l
        | cons t0 us =>
          have hne := hstop rfl t0 us rfl
          simp [extOps] at hne
          rw [List.nil_append, runRule_relLoop_cons,
            if_neg (by simp [hne.1, hne.2.1, hne.2.2.1, hne.2.2.2])]
      | cons t rest0 =>
        rw [runRule_relLoop_cons] at h
        by_cases hop : (t.type = TokenType.LT || t.type = TokenType.LTE ||
            t.type = TokenType.GT || t.type = TokenType.GTE) = true
        · rw [if_pos hop] at h
          cases hq : runRule .primary rest0 with
          | error e0 => rw [hq] at h; simp at h
          | ok pr =>
            obtain ⟨rt, r1⟩ := pr
            rw [hq] at h
            simp only [] at h
            have hr1 := runRule_rest hq
            have hstep : runRule .primary (rest0 ++ u) = .ok (rt, r1 ++ u) := by
              refine ih (6 * rest0.length + 1) (by simp [rank] at hn; omega) rest0 .primary u
                rt r1 (by simp [rank]) hq ?_
              intro hr1nil t0 us hu hmem
              simp [extOps] at hmem
            show runRule (.relLoop l) (t :: (rest0 ++ u)) = _
            rw [runRule_relLoop_cons, if_pos hop, hstep]
            refine ih (6 * r1.length + 2) ?_ r1 (.relLoop (.binary t.type l rt)) u e rest
              (by simp [rank]) h ?_
            · simp [rank, ruleMin] at hn hr1 ⊢; omega
            · intro hrest t0 us hu hmem
              exact hstop hrest t0 us hu (by simp [extOps] at hmem ⊢; tauto)
        · rw [if_neg hop] at h
          simp at h
          obtain ⟨rfl, rfl⟩ := h
          show runRule (.relLoop l) (t :: (rest0 ++ u)) = _
          rw [runRule_relLoop_cons, if_neg hop]
          rfl
    | primary =>
      cases ts with
      | nil => rw [runRule_primary_nil] at h; simp at h
      | cons t rest0 =>
        rw [runRule_primary_cons] at h
        by_cases hp : t.type = TokenType.LPAREN
        · rw [if_pos hp] at h
          cases hq : runRule .expr rest0 with
          | error e0 => rw [hq] at h; simp at h
          | ok pr =>
            obtain ⟨e0, r1⟩ := pr
            rw [hq] at h
            simp only [] at h
            cases r1 with
            | nil => simp at h
            | cons r0 r' =>
              have h' : (if r0.type = TokenType.RPAREN then Except.ok (e0, r')
                  else (Except.error "Expected closing parenthesis" :
                    Except String (Expr × List Token))) = Except.ok (e, rest) := h
              by_cases hrp : r0.type = TokenType.RPAREN
              · rw [if_pos hrp] at h'
                simp at h'
                obtain ⟨rfl, rfl⟩ := h'
                have hstep : runRule .expr (rest0 ++ u) = .ok (e0, (r0 :: r') ++ u) := by
                  refine ih (6 * rest0.length + 5) (by simp [rank] at hn; omega) rest0 .expr u
                    e0 (r0 :: r') (by simp [rank]) hq ?_
                  intro hnil
                  exact absurd hnil (by simp)
                show runRule .primary (t :: (rest0 ++ u)) = _
                rw [runRule_primary_cons, if_pos hp, hstep]
                show (if r0.type = TokenType.RPAREN then Except.ok (e0, r' ++ u)
                  else Except.error "Expected closing parenthesis") = Except.ok (e0, r' ++ u)
                rw [if_pos hrp]
              · rw [if_neg hrp] at h'
                simp at h'
        · rw [if_neg hp] at h
          show runRule .primary (t :: (rest0 ++ u)) = _
          rw [runRule_primary_cons, if_neg hp]
          revert h
          cases htt : t.type <;> intro h <;> simp at h <;>
            (try (obtain ⟨rfl, rfl⟩ := h; rfl))

theorem parseExpr_append {ts u : List Token} {e : Expr} {rest : List Token}
    (h : parseExpr ts = .ok (e, rest))
    (hstop : rest = [] → ∀ t0 us, u = t0 :: us → t0.type ∉ extOps .expr) :
    parseExpr (ts ++ u) = .ok (e, rest ++ u) :=
  runRule_append _ ts .expr u e rest (le_refl _) h hstop

/-! ### Structural invariant of produced ASTs -/

/-- The operators `BinaryExpression` nodes may carry. -/
def goodOp (t : TokenType) : Bool :=
  match t with
  | .AND | .EQ | .NEQ | .LT | .LTE | .GT | .GTE => true
  | _ => false

/-- Every internal node is a binary node with an operator from
`{AND, EQ, NEQ, LT, LTE, GT, GTE}`; leaves are literal nodes (by the shape of
`Expr` itself, every node has exactly zero or exactly two children). -/
def wellFormed : Expr → Bool
  | .binary op l r => goodOp op && wellFormed l && wellFormed r
  | _ => true

/-- The accumulated left operand a loop state carries, if any, is well-formed. -/
def ruleWF : PRule → Prop
  | .compLoop l => wellFormed l = true
  | .eqLoop l => wellFormed l = true
  | .relLoop l => wellFormed l = true
  | _ => True

theorem goodOp_of_eqOp {t : TokenType}
    (h : (t = TokenType.EQ || t = TokenType.NEQ) = true) : goodOp t = true := by
  cases t <;> simp_all [goodOp]

theorem goodOp_of_relOp {t : TokenType}
    (h : (t = TokenType.LT || t = TokenType.LTE ||
      t = TokenType.GT || t = TokenType.GTE) = true) : goodOp t = true := by
  cases t <;> simp_all [goodOp]

theorem parseStep_wellFormed :
    ∀ n r ts e rest, parseStep n r ts = .ok (e, rest) → ruleWF r →
      wellFormed e = true := by
  intro n
  induction n with
  | zero => intro r ts e rest h _; simp [parseStep] at h
  | succ n ih =>
    intro r ts e rest h hwf
    cases r with
    | expr =>
      rw [parseStep_succ_expr] at h
      exact ih _ _ _ _ h trivial
    | comparison =>
      rw [parseStep_succ_comparison] at h
      cases heq : parseStep n .equality ts with
      | error e0 => rw [heq] at h; simp at h
      | ok pr =>
        obtain ⟨l, r1⟩ := pr
        rw [heq] at h
        have h' : parseStep n (.compLoop l) r1 = .ok (e, rest) := h
        exact ih _ _ _ _ h' (ih _ _ _ _ heq trivial)
    | compLoop l =>
      cases ts with
      | nil =>
        rw [parseStep_succ_compLoop_nil] at h
        simp at h
        obtain ⟨rfl, rfl⟩ := h
        exact hwf
      | cons t rest0 =>
        rw [parseStep_succ_compLoop_cons] at h
        by_cases hAnd : t.type = TokenType.AND
        · rw [if_pos hAnd] at h
          cases heq : parseStep n .equality rest0 with
          | error e0 => rw [heq] at h; simp at h
          | ok pr =>
            obtain ⟨rt, r1⟩ := pr
            rw [heq] at h
            have h' : parseStep n (.compLoop (.binary t.type l rt)) r1 = .ok (e, rest) := h
            refine ih _ _ _ _ h' ?_
            have hrt := ih _ _ _ _ heq trivial
            have hl : wellFormed l = true := hwf
            show wellFormed (Expr.binary t.type l rt) = true
            simp [wellFormed, goodOp, hAnd, hrt, hl]
        · rw [if_neg hAnd] at h
          simp at h
          obtain ⟨rfl, rfl⟩ := h
          exact hwf
    | equality =>
      rw [parseStep_succ_equality] at h
      cases heq : parseStep n .relational ts with
      | error e0 => rw [heq] at h; simp at h
      | ok pr =>
        obtain ⟨l, r1⟩ := pr
        rw [heq] at h
        have h' : parseStep n (.eqLoop l) r1 = .ok (e, rest) := h
        exact ih _ _ _ _ h' (ih _ _ _ _ heq trivial)
    | eqLoop l =>
      cases ts with
      | nil =>
        rw [parseStep_succ_eqLoop_nil] at h
        simp at h
        obtain ⟨rfl, rfl⟩ := h
        exact hwf
      | cons t rest0 =>
        rw [parseStep_succ_eqLoop_cons] at h
        by_cases hop : (t.type = TokenType.EQ || t.type = TokenType.NEQ) = true
        · rw [if_pos hop] at h
          cases heq : parseStep n .relational rest0 with
          | error e0 => rw [heq] at h; simp at h
          | ok pr =>
            obtain ⟨rt, r1⟩ := pr
            rw [heq] at h
            have h' : parseStep n (.eqLoop (.binary t.type l rt)) r1 = .ok (e, rest) := h
            refine ih _ _ _ _ h' ?_
            have hrt := ih _ _ _ _ heq trivial
            have hl : wellFormed l = true := hwf
            have hgood : goodOp t.type = true := goodOp_of_eqOp hop
            show wellFormed (Expr.binary t.type l rt) = true
            simp [wellFormed, hgood, hrt, hl]
        · rw [if_neg hop] at h
          simp at h
          obtain ⟨rfl, rfl⟩ := h
          exact hwf
    | relational =>
      rw [parseStep_succ_relational] at h
      cases heq : parseStep n .primary ts with
      | error e0 => rw [heq] at h; simp at h
      | ok pr =>
        obtain ⟨l, r1⟩ := pr
        rw [heq] at h
        have h' : parseStep n (.relLoop l) r1 = .ok (e, rest) := h
        exact ih _ _ _ _ h' (ih _ _ _ _ heq trivial)
    | relLoop l =>
      cases ts with
      | nil =>
        rw [parseStep_succ_relLoop_nil] at h
        simp at h
        obtain ⟨rfl, rfl⟩ := h
        exact hwf
      | cons t rest0 =>
        rw [parseStep_succ_relLoop_cons] at h
        by_cases hop : (t.type = TokenType.LT || t.type = TokenType.LTE ||
            t.type = TokenType.GT || t.type = TokenType.GTE) = true
        · rw [if_pos hop] at h
          cases heq : parseStep n .primary rest0 with
          | error e0 => rw [heq] at h; simp at h
          | ok pr =>
            obtain ⟨rt, r1⟩ := pr
            rw [heq] at h
            have h' : parseStep n (.relLoop (.binary t.type l rt)) r1 = .ok (e, rest) := h
            refine ih _ _ _ _ h' ?_
            have hrt := ih _ _ _ _ heq trivial
            have hl : wellFormed l = true := hwf
            have hgood : goodOp t.type = true := goodOp_of_relOp hop
            show wellFormed (Expr.binary t.type l rt) = true
            simp [wellFormed, hgood, hrt, hl]
        · rw [if_neg hop] at h
          simp at h
          obtain ⟨rfl, rfl⟩ := h
          exact hwf
    | primary =>
      cases ts with
      | nil => rw [parseStep_succ_primary_nil] at h; simp at h
      | cons t rest0 =>
        rw [parseStep_succ_primary_cons] at h
        by_cases hp : t.type = TokenType.LPAREN
        · rw [if_pos hp] at h
          cases heq : parseStep n .expr rest0 with
          | error e0 => rw [heq] at h; simp at h
          | ok pr =>
            obtain ⟨e0, r1⟩ := pr
            rw [heq] at h
            cases r1 with
            | nil => simp at h
            | cons r0 r' =>
              have h' : (if r0.type = TokenType.RPAREN then Except.ok (e0, r')
                  else (Except.error "Expected closing parenthesis" :
                    Except String (Expr × List Token))) = Except.ok (e, rest) := h
              by_cases hrp : r0.type = TokenType.RPAREN
              · rw [if_pos hrp] at h'
                simp at h'
                obtain ⟨rfl, rfl⟩ := h'
                exact ih _ _ _ _ heq trivial
              · rw [if_neg hrp] at h'
                simp at h'
        · rw [if_neg hp] at h
          obtain ⟨tt, tv⟩ := t
          revert h
          cases tt <;> intro h <;> simp at h <;>
            (try (obtain ⟨rfl, rfl⟩ := h; simp [wellFormed]))

theorem runRule_expr_wellFormed {ts : List Token} {e : Expr} {rest : List Token}
    (h : runRule .expr ts = .ok (e, rest)) : wellFormed e = true :=
  parseStep_wellFormed _ _ _ _ _ h trivial

/-! ### The parser's error messages -/

/-- Every error string the recursive descent can produce. -/
def parserErrorLike (e : String) : Prop :=
  e = "parser fuel exhausted" ∨ e = "Unexpected end of input" ∨
  e = "Expected closing parenthesis" ∨ ∃ k, e = "Unexpected token: " ++ typeName k

theorem parseStep_error :
    ∀ n r ts e, parseStep n r ts = .error e → parserErrorLike e := by
  intro n
  induction n with
  | zero =>
    intro r ts e h
    simp [parseStep] at h
    exact Or.inl h.symm
  | succ n ih =>
    intro r ts e h
    cases r with
    | expr =>
      rw [parseStep_succ_expr] at h
      exact ih _ _ _ h
    | comparison =>
      rw [parseStep_succ_comparison] at h
      cases heq : parseStep n .equality ts with
      | error e0 =>
        rw [heq] at h
        have h' : (Except.error e0 : Except String (Expr × List Token)) = .error e := h
        simp at h'
        subst h'
        exact ih _ _ _ heq
      | ok pr =>
        obtain ⟨l, r1⟩ := pr
        rw [heq] at h
        exact ih _ _ _ h
    | compLoop l =>
      cases ts with
      | nil => rw [parseStep_succ_compLoop_nil] at h; simp at h
      | cons t rest0 =>
        rw [parseStep_succ_compLoop_cons] at h
        by_cases hAnd : t.type = TokenType.AND
        · rw [if_pos hAnd] at h
          cases heq : parseStep n .equality rest0 with
          | error e0 =>
            rw [heq] at h
            have h' : (Except.error e0 : Except String (Expr × List Token)) = .error e := h
            simp at h'
            subst h'
            exact ih _ _ _ heq
          | ok pr =>
            obtain ⟨rt, r1⟩ := pr
            rw [heq] at h
            exact ih _ _ _ h
        · rw [if_neg hAnd] at h
          simp at h
    | equality =>
      rw [parseStep_succ_equality] at h
      cases heq : parseStep n .relational ts with
      | error e0 =>
        rw [heq] at h
        have h' : (Except.error e0 : Except String (Expr × List Token)) = .error e := h
        simp at h'
        subst h'
        exact ih _ _ _ heq
      | ok pr =>
        obtain ⟨l, r1⟩ := pr
        rw [heq] at h
        exact ih _ _ _ h
    | eqLoop l =>
      cases ts with
      | nil => rw [parseStep_succ_eqLoop_nil] at h; simp at h
      | cons t rest0 =>
        rw [parseStep_succ_eqLoop_cons] at h
        by_cases hop : (t.type = TokenType.EQ || t.type = TokenType.NEQ) = true
        · rw [if_pos hop] at h
          cases heq : parseStep n .relational rest0 with
          | error e0 =>
            rw [heq] at h
            have h' : (Except.error e0 : Except String (Expr × List Token)) = .error e := h
            simp at h'
            subst h'
            exact ih _ _ _ heq
          | ok pr =>
            obtain ⟨rt, r1⟩ := pr
            rw [heq] at h
            exact ih _ _ _ h
        · rw [if_neg hop] at h
          simp at h
    | relational =>
      rw [parseStep_succ_relational] at h
      cases heq : parseStep n .primary ts with
      | error e0 =>
        rw [heq] at h
        have h' : (Except.error e0 : Except String (Expr × List Token)) = .error e := h
        simp at h'
        subst h'
        exact ih _ _ _ heq
      | ok pr =>
        obtain ⟨l, r1⟩ := pr
        rw [heq] at h
        exact ih _ _ _ h
    | relLoop l =>
      cases ts with
      | nil => rw [parseStep_succ_relLoop_nil] at h; simp at h
      | cons t rest0 =>
        rw [parseStep_succ_relLoop_cons] at h
        by_cases hop : (t.type = TokenType.LT || t.type = TokenType.LTE ||
            t.type = TokenType.GT || t.type = TokenType.GTE) = true
        · rw [if_pos hop] at h
          cases heq : parseStep n .primary rest0 with
          | error e0 =>
            rw [heq] at h
            have h' : (Except.error e0 : Except String (Expr × List Token)) = .error e := h
            simp at h'
            subst h'
            exact ih _ _ _ heq
          | ok pr =>
            obtain ⟨rt, r1⟩ := pr
            rw [heq] at h
            exact ih _ _ _ h
        · rw [if_neg hop] at h
          simp at h
    | primary =>
      cases ts with
      | nil =>
        rw [parseStep_succ_primary_nil] at h
        simp at h
        subst h
        exact Or.inr (Or.inl rfl)
      | cons t rest0 =>
        rw [parseStep_succ_primary_cons] at h
        by_cases hp : t.type = TokenType.LPAREN
        · rw [if_pos hp] at h
          cases heq : parseStep n .expr rest0 with
          | error e0 =>
            rw [heq] at h
            have h' : (Except.error e0 : Except String (Expr × List Token)) = .error e := h
            simp at h'
            subst h'
            exact ih _ _ _ heq
          | ok pr =>
            obtain ⟨e0, r1⟩ := pr
            rw [heq] at h
            cases r1 with
            | nil =>
              have h' : (Except.error "Expected closing parenthesis" :
                  Except String (Expr × List Token)) = .error e := h
              simp at h'
              subst h'
              exact Or.inr (Or.inr (Or.inl rfl))
            | cons r0 r' =>
              have h' : (if r0.type = TokenType.RPAREN then Except.ok (e0, r')
                  else (Except.error "Expected closing parenthesis" :
                    Except String (Expr × List Token))) = .error e := h
              by_cases hrp : r0.type = TokenType.RPAREN
              · rw [if_pos hrp] at h'
                simp at h'
              · rw [if_neg hrp] at h'
                simp at h'
                subst h'
                exact Or.inr (Or.inr (Or.inl rfl))
        · rw [if_neg hp] at h
          obtain ⟨tt, tv⟩ := t
          revert h
          cases tt <;> intro h <;> simp at h <;>
            (try (subst h; exact Or.inr (Or.inr (Or.inr ⟨_, rfl⟩))))

/-! ### First-match characterization of the scan step -/

theorem findFirstMatch_spec (vm : VariableMatcher) :
    ∀ order s k text rest, findFirstMatch vm order s = some (k, text, rest) →
      ∃ pre post, order = pre ++ k :: post ∧
        (∀ k' ∈ pre, matcherFor vm k' s = none) ∧
        matcherFor vm k s = some (text, rest) := by
  intro order
  induction order with
  | nil => intro s k text rest h; simp [findFirstMatch] at h
  | cons k0 ks ih =>
    intro s k text rest h
    unfold findFirstMatch at h
    split at h
    · rename_i t r hm
      simp only [Option.some.injEq, Prod.mk.injEq] at h
      obtain ⟨rfl, rfl, rfl⟩ := h
      exact ⟨[], ks, rfl, by simp, hm⟩
    · rename_i hm
      obtain ⟨pre, post, horder, hpre, hk⟩ := ih s k text rest h
      exact ⟨k0 :: pre, post, by simp [horder], by
        intro k' hk'
        rcases List.mem_cons.mp hk' with rfl | hk'
        · exact hm
        · exact hpre k' hk', hk⟩

theorem findMatch_spec (vm : VariableMatcher) {s k text rest}
    (h : findMatch vm s = some (k, text, rest)) :
    ∃ pre post, TOKEN_ORDER = pre ++ k :: post ∧
      (∀ k' ∈ pre, matcherFor vm k' s = none) ∧
      matcherFor vm k s = some (text, rest) :=
  findFirstMatch_spec vm TOKEN_ORDER s k text rest h

/-! ### Nonempty trimmed input produces a nonempty token stream (or a lex error) -/

theorem matchWhitespace_none_of_head {c : Char} (cs : List Char)
    (hc : jsWhitespace c = false) : matchWhitespace (c :: cs) = none := by
  simp [matchWhitespace, List.takeWhile_cons, hc]

theorem findMatch_not_ws {vm : VariableMatcher} {c : Char} {cs text rest}
    (hc : jsWhitespace c = false) :
    findMatch vm (c :: cs) ≠ some (.WHITESPACE, text, rest) := by
  intro h
  obtain ⟨pre, post, _, _, hm⟩ := findMatch_spec vm h
  rw [show matcherFor vm TokenType.WHITESPACE = matchWhitespace from rfl,
    matchWhitespace_none_of_head cs hc] at hm
  cases hm

theorem tokenizeCore_head_not_ws (vm : VariableMatcher) {c : Char} {cs : List Char}
    (hc : jsWhitespace c = false) :
    (∃ e, tokenizeCore vm 0 (c :: cs) = .error e) ∨
    ∃ tok ts, tokenizeCore vm 0 (c :: cs) = .ok (tok :: ts) := by
  cases hfm : findMatch vm (c :: cs) with
  | none =>
    exact Or.inl ⟨_, tokenizeCore_of_findMatch_none vm 0 (by simp) hfm⟩
  | some ktr =>
    obtain ⟨k, text, rest⟩ := ktr
    have hk : k ≠ TokenType.WHITESPACE := by
      intro hk
      subst hk
      exact findMatch_not_ws hc hfm
    rw [tokenizeCore_of_findMatch_tok vm 0 hfm hk]
    cases tokenizeCore vm (0 + text.length) rest with
    | error e => exact Or.inl ⟨e, rfl⟩
    | ok ts => exact Or.inr ⟨_, ts, rfl⟩

theorem jsTrim_head (s : String) :
    (jsTrim s).data = [] ∨
    ∃ c cs, (jsTrim s).data = c :: cs ∧ jsWhitespace c = false := by
  have hpref : (jsTrim s).data <+: s.data.dropWhile jsWhitespace := by
    have h1 : (s.data.dropWhile jsWhitespace).reverse.dropWhile jsWhitespace <:+
        (s.data.dropWhile jsWhitespace).reverse := List.dropWhile_suffix jsWhitespace
    have h2 := List.reverse_prefix.mpr h1
    simpa using h2
  cases hR : (jsTrim s).data with
  | nil => exact Or.inl rfl
  | cons c cs =>
    refine Or.inr ⟨c, cs, rfl, ?_⟩
    rw [hR] at hpref
    obtain ⟨u, hu⟩ := hpref
    have hhead : (s.data.dropWhile jsWhitespace).head? = some c := by rw [← hu]; rfl
    have hw := List.head?_dropWhile_not jsWhitespace s.data
    rw [hhead] at hw
    exact hw

/-! ### No other input produces the empty-input message -/

theorem trailing_msg_ne (x : String) :
    "Unxpected token after the end of expression: " ++ x ≠ "Input vuoto" := by
  intro h
  have := congrArg String.length h
  rw [String.length_append] at this
  have h1 : ("Unxpected token after the end of expression: " : String).length = 45 := rfl
  have h2 : ("Input vuoto" : String).length = 11 := rfl
  omega

theorem unexpected_msg_ne (x : String) :
    "Unexpected token: " ++ x ≠ "Input vuoto" := by
  intro h
  have := congrArg String.length h
  rw [String.length_append] at this
  have h1 : ("Unexpected token: " : String).length = 18 := rfl
  have h2 : ("Input vuoto" : String).length = 11 := rfl
  omega

theorem parse_cons_ne_vuoto (t : Token) (ts : List Token) :
    parse (t :: ts) ≠ .invalid "Input vuoto" := by
  unfold parse
  cases hq : parseExpr (t :: ts) with
  | error e =>
    have he := parseStep_error _ _ _ _ hq
    simp only []
    intro h
    simp at h
    rcases he with rfl | rfl | rfl | ⟨k, rfl⟩
    · simp at h
    · simp at h
    · simp at h
    · exact unexpected_msg_ne (typeName k) h
  | ok pr =>
    obtain ⟨ast, rest⟩ := pr
    cases rest with
    | nil => simp
    | cons r0 rs =>
      simp only []
      intro h
      simp at h
      exact trailing_msg_ne (typeName r0.type) h

theorem parse_cons (t0 : Token) (ts0 : List Token) :
    parse (t0 :: ts0) =
      match parseExpr (t0 :: ts0) with
      | .ok (ast, []) => .valid ast
      | .ok (_, t :: _) =>
        .invalid ("Unxpected token after the end of expression: " ++ typeName t.type)
      | .error e => .invalid e := rfl

instance {ε α : Type} [DecidableEq ε] [DecidableEq α] : DecidableEq (Except ε α) := fun x y =>
  match x, y with
  | .ok a, .ok b =>
    if h : a = b then isTrue (by rw [h])
    else isFalse (by intro hh; cases hh; exact h rfl)
  | .error a, .error b =>
    if h : a = b then isTrue (by rw [h])
    else isFalse (by intro hh; cases hh; exact h rfl)
  | .ok _, .error _ => isFalse (by intro hh; cases hh)
  | .error _, .ok _ => isFalse (by intro hh; cases hh)

/-! ## The claims -/

/-- C1 (counterexample): the claim "`parseExpression` ... never raises outward:
when tokenization fails, it catches the lexer failure and returns
`{valid:false, error}`" is false on the code: `tokenize` is called before the
`try/catch` inside `parse()`, so on the input `"@"` (on which no token pattern
matches at offset 0) the lexer `Error` escapes `parseExpression` — the result
is a raised exception (`Except.error`), never a `{valid:false}` value. -/
theorem C1_counterexample :
    parseExpression "@" = .error "Token error 0: \"@...\"" ∧
    ∀ r, parseExpression "@" ≠ .ok r := by
  have h1 : parseExpression "@" = .error "Token error 0: \"@...\"" := by decide
  refine ⟨h1, ?_⟩
  intro r h
  rw [h1] at h
  exact Except.noConfusion h

/-- C1 (amended): for every input whose trimmed text tokenizes successfully,
`parseExpression` returns the structured `{valid, ast}` / `{valid:false, error}`
result (all parser failures are caught by the inner `try/catch` and converted
into `{valid:false, error}`); but a tokenizer failure is not caught — the
lexer exception propagates to the caller unchanged. -/
theorem C1_tokenizer_errors_propagate (input : String) :
    (∀ ts, tokenize (jsTrim input) = .ok ts → parseExpression input = .ok (parse ts)) ∧
    (∀ e, tokenize (jsTrim input) = .error e → parseExpression input = .error e) := by
  constructor <;> intro x h <;> unfold parseExpression <;> rw [h]

theorem C1_tokenizer_errors_propagate_witness :
    parseExpression "integer_value > 5" =
      .ok (parse [⟨.VARIABLE, "integer_value"⟩, ⟨.GT, ">"⟩, ⟨.NUMBER, "5"⟩]) :=
  (C1_tokenizer_errors_propagate "integer_value > 5").1 _ (by decide)

/-- C2: the source's `parseExpression` takes only the input string — contrary
to the claim (and to the repository's own `create-parser.test.ts` and README)
it accepts no matcher configuration, so the test input
`parseExpression('my_custom_var == true', {variableRegexp: /my_custom_[a-z]+\b/y})`
tokenizes with the default pattern and throws a token error instead of
returning `{valid:true}`.  `createParser` itself is absent from `src/`; the
spec-modelled `createParser` bound to the pattern `custom_[a-z]+` does accept
`"custom_test == 10"` with the expected AST and rejects
`"string_value == \"test\""` at tokenization. -/
theorem C2_custom_matcher :
    parseExpression "my_custom_var == true" = .error "Token error 0: \"my_custom_...\"" ∧
    createParser customVariableMatcher "custom_test == 10" =
      .valid (.binary .EQ (.var "custom_test") (.num "10")) ∧
    createParser customVariableMatcher "string_value == \"test\"" =
      .invalid "Token error 0: \"string_val...\"" :=
  ⟨by decide, by decide, by decide⟩

/-- C5: `parseExpression` answers `{valid:false, error:"Input vuoto"}` exactly
for the inputs that trim to the empty string (so the token sequence is empty);
no other input ever produces this message, making it distinguished. -/
theorem C5_empty_input (input : String) :
    parseExpression input = .ok (.invalid "Input vuoto") ↔ jsTrim input = "" := by
  constructor
  · intro h
    rcases jsTrim_head input with hnil | ⟨c, cs, hdata, hc⟩
    · cases hjt : jsTrim input with
      | mk data =>
        rw [hjt] at hnil
        simp at hnil
        subst hnil
        rfl
    · exfalso
      unfold parseExpression tokenize tokenizeWith at h
      rw [hdata] at h
      rcases tokenizeCore_head_not_ws defaultVariableMatcher hc with ⟨e, he⟩ | ⟨tok, ts, hts⟩
      · rw [he] at h
        exact Except.noConfusion h
      · rw [hts] at h
        simp at h
        exact parse_cons_ne_vuoto tok ts h
  · intro h
    unfold parseExpression
    rw [h]
    rfl

theorem C5_empty_input_witness :
    parseExpression "   " = .ok (.invalid "Input vuoto") :=
  (C5_empty_input "   ").mpr (by decide)

/-- C8: whenever a full expression parses but tokens remain, the parser
reports an error naming the kind of the first trailing token (it never
silently ignores trailing input); in particular
`"integer_value > 5 integer_value"` is rejected with a message naming the
trailing `VARIABLE` token. -/
theorem C8_trailing_tokens :
    (∀ ts t rest e, parseExpr ts = .ok (e, t :: rest) →
      parse ts = .invalid ("Unxpected token after the end of expression: " ++
        typeName t.type)) ∧
    parseExpression "integer_value > 5 integer_value" =
      .ok (.invalid "Unxpected token after the end of expression: VARIABLE") := by
  constructor
  · intro ts t rest e h
    have hlen := runRule_rest h
    cases ts with
    | nil => simp [ruleMin] at hlen
    | cons t0 ts0 => rw [parse_cons, h]
  · decide

theorem C8_trailing_tokens_witness :
    parse [⟨.VARIABLE, "integer_value"⟩, ⟨.GT, ">"⟩, ⟨.NUMBER, "5"⟩,
        ⟨.VARIABLE, "integer_value"⟩] =
      .invalid ("Unxpected token after the end of expression: " ++
        typeName TokenType.VARIABLE) :=
  C8_trailing_tokens.1 _ ⟨.VARIABLE, "integer_value"⟩ [] (.binary .GT
    (.var "integer_value") (.num "5")) (by decide)

/-- C9: every AST a successful `parseExpression` returns satisfies the
structural invariant: by the inductive shape of `Expr` every node is either a
leaf literal (`Number`, `String`, `Boolean`, `VARIABLE` carrying a value) or a
`BinaryExpression` with exactly two children, and `wellFormed` checks that
every internal node's operator is one of `AND, EQ, NEQ, LT, LTE, GT, GTE`;
finiteness and acyclicity are intrinsic to the inductive type. -/
theorem C9_ast_invariant (input : String) (ast : Expr)
    (h : parseExpression input = .ok (.valid ast)) : wellFormed ast = true := by
  unfold parseExpression at h
  cases htok : tokenize (jsTrim input) with
  | error e => rw [htok] at h; exact Except.noConfusion h
  | ok ts =>
    rw [htok] at h
    simp at h
    cases ts with
    | nil => simp [parse] at h
    | cons t0 ts0 =>
      rw [parse_cons] at h
      cases hq : parseExpr (t0 :: ts0) with
      | error e => rw [hq] at h; simp at h
      | ok pr =>
        obtain ⟨e0, rest⟩ := pr
        rw [hq] at h
        cases rest with
        | nil =>
          have h' : ParseResult.valid e0 = .valid ast := h
          have : e0 = ast := by injection h'
          subst this
          exact runRule_expr_wellFormed hq
        | cons r0 rs => simp at h

theorem C9_ast_invariant_witness :
    ∃ ast, parseExpression "integer_value > 5" = .ok (.valid ast) ∧
      wellFormed ast = true :=
  ⟨.binary .GT (.var "integer_value") (.num "5"), by decide,
    C9_ast_invariant "integer_value > 5" _ (by decide)⟩

/-- C10: parentheses are structurally transparent: wrapping a fully parsing
token sequence in `LParen`/`RParen` parses to the structurally identical AST
(the parenthesized primary returns the inner node, adding no wrapper), so
`"((string_value))"` produces the very same result as `"string_value"`. -/
theorem C10_paren_transparent :
    (∀ ts e tL tR, tL.type = .LPAREN → tR.type = .RPAREN →
      parseExpr ts = .ok (e, []) →
      parseExpr (tL :: ts ++ [tR]) = .ok (e, []) ∧
      parse (tL :: ts ++ [tR]) = parse ts) ∧
    parseExpression "((string_value))" = parseExpression "string_value" := by
  constructor
  · intro ts e tL tR hL hR h
    have h1 : parseExpr (ts ++ [tR]) = .ok (e, [tR]) := by
      have hstep := parseExpr_append (u := [tR]) h ?_
      · simpa using hstep
      · intro _ t0 us hu hmem
        injection hu with e1 e2
        subst e1
        rw [hR] at hmem
        simp [extOps] at hmem
    have hprim : runRule .primary (tL :: (ts ++ [tR])) = .ok (e, []) := by
      rw [runRule_primary_cons, if_pos hL,
        show runRule .expr (ts ++ [tR]) = .ok (e, [tR]) from h1]
      simp [hR]
    have hrel : runRule .relational (tL :: (ts ++ [tR])) = .ok (e, []) := by
      rw [runRule_relational, hprim]
      exact runRule_relLoop_nil e
    have heq : runRule .equality (tL :: (ts ++ [tR])) = .ok (e, []) := by
      rw [runRule_equality, hrel]
      exact runRule_eqLoop_nil e
    have hcomp : runRule .comparison (tL :: (ts ++ [tR])) = .ok (e, []) := by
      rw [runRule_comparison, heq]
      exact runRule_compLoop_nil e
    have h2 : parseExpr (tL :: ts ++ [tR]) = .ok (e, []) := by
      show runRule .expr _ = _
      rw [runRule_expr]
      exact hcomp
    refine ⟨h2, ?_⟩
    have hts : ts ≠ [] := by
      have := runRule_rest h
      cases ts with
      | nil => simp [ruleMin] at this
      | cons a b => simp
    obtain ⟨t0, ts0, rfl⟩ : ∃ t0 ts0, ts = t0 :: ts0 := by
      cases ts with
      | nil => exact absurd rfl hts
      | cons a b => exact ⟨a, b, rfl⟩
    rw [parse_cons, h]
    show parse (tL :: (t0 :: ts0 ++ [tR])) = _
    rw [parse_cons, show parseExpr (tL :: (t0 :: ts0 ++ [tR])) = Except.ok (e, []) from h2]
  · decide

theorem C10_paren_transparent_witness :
    parseExpr [⟨.LPAREN, "("⟩, ⟨.VARIABLE, "string_value"⟩, ⟨.RPAREN, ")"⟩] =
      .ok (.var "string_value", []) :=
  (C10_paren_transparent.1 [⟨.VARIABLE, "string_value"⟩] (.var "string_value")
    ⟨.LPAREN, "("⟩ ⟨.RPAREN, ")"⟩ rfl rfl (by decide)).1

/-- C3: all binary operators are strictly left-associative.  For any
sub-expression token sequences fully parsed at the next-tighter level,
`A and B and C` parses as `And(And(A,B),C)`; an equality chain
`A op1 B op2 C` (`op1, op2 ∈ {==, !=}`) parses as `op2(op1(A,B),C)`; a
relational chain (`<, <=, >, >=`) parses the same leftward way — never the
mirror right-nested shape.  The concrete instance
`"integer_value > 1 and longinteger_value > 2 and double_value > 3"` yields
the left-nested tree. -/
theorem C3_left_assoc :
    (∀ ta tb tc A B C t1 t2, t1.type = .AND → t2.type = .AND →
      parseEquality ta = .ok (A, []) → parseEquality tb = .ok (B, []) →
      parseEquality tc = .ok (C, []) →
      parseExpr (ta ++ t1 :: tb ++ t2 :: tc) =
        .ok (.binary .AND (.binary .AND A B) C, [])) ∧
    (∀ ta tb tc A B C t1 t2,
      (t1.type = .EQ ∨ t1.type = .NEQ) → (t2.type = .EQ ∨ t2.type = .NEQ) →
      parseRelational ta = .ok (A, []) → parseRelational tb = .ok (B, []) →
      parseRelational tc = .ok (C, []) →
      parseEquality (ta ++ t1 :: tb ++ t2 :: tc) =
        .ok (.binary t2.type (.binary t1.type A B) C, [])) ∧
    (∀ ta tb tc A B C t1 t2,
      (t1.type = .LT ∨ t1.type = .LTE ∨ t1.type = .GT ∨ t1.type = .GTE) →
      (t2.type = .LT ∨ t2.type = .LTE ∨ t2.type = .GT ∨ t2.type = .GTE) →
      parsePrimary ta = .ok (A, []) → parsePrimary tb = .ok (B, []) →
      parsePrimary tc = .ok (C, []) →
      parseRelational (ta ++ t1 :: tb ++ t2 :: tc) =
        .ok (.binary t2.type (.binary t1.type A B) C, [])) ∧
    parseExpression "integer_value > 1 and longinteger_value > 2 and double_value > 3" =
      .ok (.valid (.binary .AND
        (.binary .AND
          (.binary .GT (.var "integer_value") (.num "1"))
          (.binary .GT (.var "longinteger_value") (.num "2")))
        (.binary .GT (.var "double_value") (.num "3")))) := by
  refine ⟨?_, ?_, ?_, by decide⟩
  · intro ta tb tc A B C t1 t2 h1 h2 hA hB hC
    have hA' : runRule .equality (ta ++ (t1 :: (tb ++ t2 :: tc))) =
        .ok (A, t1 :: (tb ++ t2 :: tc)) := by
      have hstep := runRule_append _ ta .equality (t1 :: (tb ++ t2 :: tc)) A []
        (le_refl _) hA ?_
      · simpa using hstep
      · intro _ t0 us hu hmem
        injection hu with e1 e2
        subst e1
        rw [h1] at hmem
        simp [extOps] at hmem
    have hB' : runRule .equality (tb ++ (t2 :: tc)) = .ok (B, t2 :: tc) := by
      have hstep := runRule_append _ tb .equality (t2 :: tc) B [] (le_refl _) hB ?_
      · simpa using hstep
      · intro _ t0 us hu hmem
        injection hu with e1 e2
        subst e1
        rw [h2] at hmem
        simp [extOps] at hmem
    have s1 : runRule .comparison (ta ++ (t1 :: (tb ++ t2 :: tc))) =
        runRule (.compLoop A) (t1 :: (tb ++ t2 :: tc)) := by
      rw [runRule_comparison, hA']
    have s2 : runRule (.compLoop A) (t1 :: (tb ++ t2 :: tc)) =
        runRule (.compLoop (.binary t1.type A B)) (t2 :: tc) := by
      rw [runRule_compLoop_cons, if_pos h1, hB']
    have s3 : runRule (.compLoop (.binary t1.type A B)) (t2 :: tc) =
        runRule (.compLoop (.binary t2.type (.binary t1.type A B) C)) [] := by
      rw [runRule_compLoop_cons, if_pos h2,
        show runRule .equality tc = .ok (C, []) from hC]
    have hlist : ta ++ t1 :: tb ++ t2 :: tc = ta ++ (t1 :: (tb ++ t2 :: tc)) := by simp
    rw [show parseExpr (ta ++ t1 :: tb ++ t2 :: tc) =
        runRule .expr (ta ++ t1 :: tb ++ t2 :: tc) from rfl, hlist]
    rw [runRule_expr, s1, s2, s3, runRule_compLoop_nil, h1, h2]
  · intro ta tb tc A B C t1 t2 h1 h2 hA hB hC
    have hop1 : (t1.type = TokenType.EQ || t1.type = TokenType.NEQ) = true := by
      rcases h1 with h | h <;> simp [h]
    have hop2 : (t2.type = TokenType.EQ || t2.type = TokenType.NEQ) = true := by
      rcases h2 with h | h <;> simp [h]
    have hA' : runRule .relational (ta ++ (t1 :: (tb ++ t2 :: tc))) =
        .ok (A, t1 :: (tb ++ t2 :: tc)) := by
      have hstep := runRule_append _ ta .relational (t1 :: (tb ++ t2 :: tc)) A []
        (le_refl _) hA ?_
      · simpa using hstep
      · intro _ t0 us hu hmem
        injection hu with e1 e2
        subst e1
        rcases h1 with h | h <;> rw [h] at hmem <;> simp [extOps] at hmem
    have hB' : runRule .relational (tb ++ (t2 :: tc)) = .ok (B, t2 :: tc) := by
      have hstep := runRule_append _ tb .relational (t2 :: tc) B [] (le_refl _) hB ?_
      · simpa using hstep
      · intro _ t0 us hu hmem
        injection hu with e1 e2
        subst e1
        rcases h2 with h | h <;> rw [h] at hmem <;> simp [extOps] at hmem
    have s1 : runRule .equality (ta ++ (t1 :: (tb ++ t2 :: tc))) =
        runRule (.eqLoop A) (t1 :: (tb ++ t2 :: tc)) := by
      rw [runRule_equality, hA']
    have s2 : runRule (.eqLoop A) (t1 :: (tb ++ t2 :: tc)) =
        runRule (.eqLoop (.binary t1.type A B)) (t2 :: tc) := by
      rw [runRule_eqLoop_cons, if_pos hop1, hB']
    have s3 : runRule (.eqLoop (.binary t1.type A B)) (t2 :: tc) =
        runRule (.eqLoop (.binary t2.type (.binary t1.type A B) C)) [] := by
      rw [runRule_eqLoop_cons, if_pos hop2,
        show runRule .relational tc = .ok (C, []) from hC]
    have hlist : ta ++ t1 :: tb ++ t2 :: tc = ta ++ (t1 :: (tb ++ t2 :: tc)) := by simp
    rw [show parseEquality (ta ++ t1 :: tb ++ t2 :: tc) =
        runRule .equality (ta ++ t1 :: tb ++ t2 :: tc) from rfl, hlist]
    rw [s1, s2, s3, runRule_eqLoop_nil]
  · intro ta tb tc A B C t1 t2 h1 h2 hA hB hC
    have hop1 : (t1.type = TokenType.LT || t1.type = TokenType.LTE ||
        t1.type = TokenType.GT || t1.type = TokenType.GTE) = true := by
      rcases h1 with h | h | h | h <;> simp [h]
    have hop2 : (t2.type = TokenType.LT || t2.type = TokenType.LTE ||
        t2.type = TokenType.GT || t2.type = TokenType.GTE) = true := by
      rcases h2 with h | h | h | h <;> simp [h]
    have hA' : runRule .primary (ta ++ (t1 :: (tb ++ t2 :: tc))) =
        .ok (A, t1 :: (tb ++ t2 :: tc)) := by
      have hstep := runRule_append _ ta .primary (t1 :: (tb ++ t2 :: tc)) A []
        (le_refl _) hA ?_
      · simpa using hstep
      · intro _ t0 us hu hmem
        simp [extOps] at hmem
    have hB' : runRule .primary (tb ++ (t2 :: tc)) = .ok (B, t2 :: tc) := by
      have hstep := runRule_append _ tb .primary (t2 :: tc) B [] (le_refl _) hB ?_
      · simpa using hstep
      · intro _ t0 us hu hmem
        simp [extOps] at hmem
    have s1 : runRule .relational (ta ++ (t1 :: (tb ++ t2 :: tc))) =
        runRule (.relLoop A) (t1 :: (tb ++ t2 :: tc)) := by
      rw [runRule_relational, hA']
    have s2 : runRule (.relLoop A) (t1 :: (tb ++ t2 :: tc)) =
        runRule (.relLoop (.binary t1.type A B)) (t2 :: tc) := by
      rw [runRule_relLoop_cons, if_pos hop1, hB']
    have s3 : runRule (.relLoop (.binary t1.type A B)) (t2 :: tc) =
        runRule (.relLoop (.binary t2.type (.binary t1.type A B) C)) [] := by
      rw [runRule_relLoop_cons, if_pos hop2,
        show runRule .primary tc = .ok (C, []) from hC]
    have hlist : ta ++ t1 :: tb ++ t2 :: tc = ta ++ (t1 :: (tb ++ t2 :: tc)) := by simp
    rw [show parseRelational (ta ++ t1 :: tb ++ t2 :: tc) =
        runRule .relational (ta ++ t1 :: tb ++ t2 :: tc) from rfl, hlist]
    rw [s1, s2, s3, runRule_relLoop_nil]

theorem C3_left_assoc_witness :
    parseExpr [⟨.BOOLEAN, "true"⟩, ⟨.AND, "and"⟩, ⟨.BOOLEAN, "false"⟩,
        ⟨.AND, "AND"⟩, ⟨.BOOLEAN, "true"⟩] =
      .ok (.binary .AND (.binary .AND (.bool true) (.bool false)) (.bool true), []) :=
  C3_left_assoc.1 [⟨.BOOLEAN, "true"⟩] [⟨.BOOLEAN, "false"⟩] [⟨.BOOLEAN, "true"⟩]
    (.bool true) (.bool false) (.bool true) ⟨.AND, "and"⟩ ⟨.AND, "AND"⟩ rfl rfl
    (by decide) (by decide) (by decide)

/-- C4: precedence follows the grammar chain — `and` lowest, equality tighter,
relational tightest: for any variable/number token values, the token sequence
of `X == 1 and Y > 2` parses with root `And`, left subtree `Eq(X,1)`, right
subtree `Gt(Y,2)`; the concrete string
`"integer_value == 1 and double_value > 2"` does the same through the full
pipeline. -/
theorem C4_precedence :
    (∀ x y n1 n2 : String,
      parseExpr [⟨.VARIABLE, x⟩, ⟨.EQ, "=="⟩, ⟨.NUMBER, n1⟩, ⟨.AND, "and"⟩,
          ⟨.VARIABLE, y⟩, ⟨.GT, ">"⟩, ⟨.NUMBER, n2⟩] =
        .ok (.binary .AND (.binary .EQ (.var x) (.num n1))
          (.binary .GT (.var y) (.num n2)), [])) ∧
    parseExpression "integer_value == 1 and double_value > 2" =
      .ok (.valid (.binary .AND (.binary .EQ (.var "integer_value") (.num "1"))
        (.binary .GT (.var "double_value") (.num "2")))) := by
  refine ⟨?_, by decide⟩
  intro x y n1 n2
  show runRule .expr _ = _
  rw [runRule_expr, runRule_comparison, runRule_equality, runRule_relational,
    runRule_primary_cons]
  simp [runRule_relLoop_cons, runRule_eqLoop_cons, runRule_compLoop_cons,
    runRule_primary_cons, runRule_relLoop_nil, runRule_eqLoop_nil,
    runRule_compLoop_nil, runRule_relational, runRule_equality]

/-- C6: the lexer's fixed priority order is exactly
`WHITESPACE, LTE, GTE, EQ, NEQ, LT, GT, AND, BOOLEAN, VARIABLE, NUMBER,
STRING, LPAREN, RPAREN`; a produced token comes from the first pattern of
that order matching anchored at the current offset (all earlier patterns
fail there), the match splits the input there and the scan advances by its
length; consequently `"<="` tokenizes to the single `LTE` token. -/
theorem C6_lexer_priority :
    TOKEN_ORDER = [.WHITESPACE, .LTE, .GTE, .EQ, .NEQ, .LT, .GT, .AND,
      .BOOLEAN, .VARIABLE, .NUMBER, .STRING, .LPAREN, .RPAREN] ∧
    (∀ vm s k text rest, findMatch vm s = some (k, text, rest) →
      s = text ++ rest ∧ text ≠ [] ∧
      ∃ pre post, TOKEN_ORDER = pre ++ k :: post ∧
        (∀ k' ∈ pre, matcherFor vm k' s = none) ∧
        matcherFor vm k s = some (text, rest)) ∧
    (∀ vm pos s k text rest, findMatch vm s = some (k, text, rest) →
      k ≠ .WHITESPACE →
      tokenizeCore vm pos s = (tokenizeCore vm (pos + text.length) rest).map
        (fun ts => Token.mk k (tokenValue k text) :: ts)) ∧
    tokenize "<=" = .ok [⟨.LTE, "<="⟩] := by
  refine ⟨rfl, ?_, ?_, by decide⟩
  · intro vm s k text rest h
    obtain ⟨hsplit, hne⟩ := findMatch_sound vm h
    exact ⟨hsplit, hne, findMatch_spec vm h⟩
  · intro vm pos s k text rest h hk
    exact tokenizeCore_of_findMatch_tok vm pos h hk

theorem C6_lexer_priority_witness :
    "<=".data = "<=".data ++ ([] : List Char) ∧ "<=".data ≠ [] ∧
    ∃ pre post, TOKEN_ORDER = pre ++ TokenType.LTE :: post ∧
      (∀ k' ∈ pre, matcherFor defaultVariableMatcher k' "<=".data = none) ∧
      matcherFor defaultVariableMatcher TokenType.LTE "<=".data =
        some ("<=".data, []) :=
  C6_lexer_priority.2.1 defaultVariableMatcher "<=".data .LTE "<=".data []
    (by decide)

/-! ### Re-tokenization: the literal texts of an emitted token sequence -/

/-- The literal matched text of a token, reconstructed from its stored value
(the `matchedText` local of the scan loop): every kind stores the matched text
verbatim except `STRING`, which stores the content between the quotes. -/
def tokenTextChars (t : Token) : List Char :=
  match t.type with
  | .STRING => '"' :: (t.value.data ++ ['"'])
  | _ => t.value.data

/-- The literal texts of a token sequence joined by single spaces. -/
def joinChars : List Token → List Char
  | [] => []
  | [t] => tokenTextChars t
  | t :: t2 :: ts => tokenTextChars t ++ ' ' :: joinChars (t2 :: ts)

/-- The literal texts of a token sequence joined by single spaces, as a string. -/
def joinTexts (ts : List Token) : String := String.mk (joinChars ts)

/-- What can follow a token text in the rejoined input: nothing, or a single
separating space. -/
def SepOK (r : List Char) : Prop := r = [] ∨ ∃ x, r = ' ' :: x

/-- The matched text a successful default matcher of each kind can produce,
expressed as a condition on the stored token value. -/
def NumTextOK (l : List Char) : Prop :=
  (l ≠ [] ∧ ∀ c ∈ l, c.isDigit = true) ∨
  (∃ ds fs, l = ds ++ '.' :: fs ∧ ds ≠ [] ∧ fs ≠ [] ∧
    (∀ c ∈ ds, c.isDigit = true) ∧ (∀ c ∈ fs, c.isDigit = true))

/-- The shape of a default `VARIABLE` match. -/
def VarTextOK (l : List Char) : Prop :=
  ∃ p, p ∈ variablePrefixes ∧ ∃ a, (a = [] ∨ a = "array".data) ∧
    l = p ++ (a ++ "_value".data)

/-- Invariant of every token the default tokenizer emits, phrased on the
stored value. -/
def tokenOK (t : Token) : Prop :=
  match t.type with
  | .WHITESPACE => False
  | .NUMBER => NumTextOK t.value.data
  | .STRING => ∀ c ∈ t.value.data, c ≠ '"'
  | .BOOLEAN => t.value.data = "true".data ∨ t.value.data = "false".data
  | .VARIABLE => VarTextOK t.value.data
  | .AND => t.value.data = "and".data ∨ t.value.data = "AND".data
  | .EQ => t.value.data = "==".data
  | .NEQ => t.value.data = "!=".data
  | .LTE => t.value.data = "<=".data
  | .LT => t.value.data = "<".data
  | .GTE => t.value.data = ">=".data
  | .GT => t.value.data = ">".data
  | .LPAREN => t.value.data = "(".data
  | .RPAREN => t.value.data = ")".data

theorem startsWith_append : ∀ (kw r : List Char), startsWith kw (kw ++ r) = some r := by
  intro kw
  induction kw with
  | nil => intro r; rfl
  | cons k ks ih => intro r; simp [startsWith, ih]

theorem boundaryAfter_sep {r : List Char} (h : SepOK r) : boundaryAfter r = true := by
  rcases h with rfl | ⟨x, rfl⟩
  · rfl
  · simp [boundaryAfter, wordChar]

/-- The run of `p`-characters cannot continue into `r`. -/
def HeadFalse (p : Char → Bool) (r : List Char) : Prop :=
  match r with
  | [] => True
  | c :: _ => p c = false

theorem takeWhile_append_of_all {p : Char → Bool} :
    ∀ {ds r : List Char}, (∀ c ∈ ds, p c = true) → HeadFalse p r →
      (ds ++ r).takeWhile p = ds ∧ (ds ++ r).dropWhile p = r := by
  intro ds
  induction ds with
  | nil =>
    intro r _ h2
    cases r with
    | nil => simp
    | cons c x =>
      have h2' : p c = false := h2
      simp [List.takeWhile_cons, List.dropWhile_cons, h2']
  | cons d ds ih =>
    intro r h1 h2
    have hd : p d = true := h1 d (by simp)
    have ih' := ih (fun c hc => h1 c (by simp [hc])) h2
    simp [List.takeWhile_cons, List.dropWhile_cons, hd, ih'.1, ih'.2]

theorem matchKeyword_shape {kw s text rest}
    (h : matchKeyword kw s = some (text, rest)) : text = kw := by
  unfold matchKeyword at h
  cases hsw : startsWith kw s with
  | none => rw [hsw] at h; simp at h
  | some r' =>
    rw [hsw] at h
    simp at h
    exact h.1.symm

theorem matchKeywordB_shape {kw s text rest}
    (h : matchKeywordB kw s = some (text, rest)) : text = kw := by
  unfold matchKeywordB at h
  split at h
  · split at h
    · simp at h
      exact h.1.symm
    · simp at h
  · simp at h

theorem matchBoolean_shape {s text rest}
    (h : matchBoolean s = some (text, rest)) :
    text = "true".data ∨ text = "false".data := by
  unfold matchBoolean at h
  split at h
  · rename_i m htrue
    simp only [Option.some.injEq] at h
    subst h
    exact Or.inl (matchKeywordB_shape htrue)
  · exact Or.inr (matchKeywordB_shape h)

theorem matchAnd_shape {s text rest}
    (h : matchAnd s = some (text, rest)) :
    text = "and".data ∨ text = "AND".data := by
  unfold matchAnd at h
  split at h
  · rename_i m hand
    simp only [Option.some.injEq] at h
    subst h
    exact Or.inl (matchKeywordB_shape hand)
  · exact Or.inr (matchKeywordB_shape h)

theorem matchNumber_textOK {s text rest}
    (h : matchNumber s = some (text, rest)) : NumTextOK text := by
  have hall1 : ∀ c ∈ s.takeWhile Char.isDigit, c.isDigit = true :=
    fun c hc => List.mem_takeWhile_imp hc
  simp only [matchNumber] at h
  split at h
  · simp at h
  · rename_i hne
    have hne' : s.takeWhile Char.isDigit ≠ [] := by simpa [List.isEmpty_iff] using hne
    split at h
    · rename_i r2 heq
      have hall2 : ∀ c ∈ r2.takeWhile Char.isDigit, c.isDigit = true :=
        fun c hc => List.mem_takeWhile_imp hc
      split at h
      · split at h
        · simp only [Option.some.injEq, Prod.mk.injEq] at h
          obtain ⟨rfl, rfl⟩ := h
          exact Or.inl ⟨hne', hall1⟩
        · simp at h
      · rename_i hfe
        have hfe' : r2.takeWhile Char.isDigit ≠ [] := by simpa [List.isEmpty_iff] using hfe
        split at h
        · simp only [Option.some.injEq, Prod.mk.injEq] at h
          obtain ⟨rfl, rfl⟩ := h
          exact Or.inr ⟨_, _, rfl, hne', hfe', hall1, hall2⟩
        · split at h
          · simp only [Option.some.injEq, Prod.mk.injEq] at h
            obtain ⟨rfl, rfl⟩ := h
            exact Or.inl ⟨hne', hall1⟩
          · simp at h
    · split at h
      · simp only [Option.some.injEq, Prod.mk.injEq] at h
        obtain ⟨rfl, rfl⟩ := h
        exact Or.inl ⟨hne', hall1⟩
      · simp at h

theorem matchString_shape {s text rest}
    (h : matchString s = some (text, rest)) :
    ∃ content, text = '"' :: (content ++ ['"']) ∧ ∀ c ∈ content, c ≠ '"' := by
  simp only [matchString] at h
  split at h
  · rename_i cs
    split at h
    · rename_i rest2 heq
      simp only [Option.some.injEq, Prod.mk.injEq] at h
      obtain ⟨rfl, rfl⟩ := h
      refine ⟨cs.takeWhile notQuote, rfl, ?_⟩
      intro c hc
      have := List.mem_takeWhile_imp hc
      simpa [notQuote] using this
    · simp at h
  · simp at h

theorem matchVarSuffix_shape {r1 suf rest}
    (h : matchVarSuffix r1 = some (suf, rest)) :
    suf = "array_value".data ∨ suf = "_value".data := by
  unfold matchVarSuffix at h
  split at h
  · split at h
    · simp at h
      exact Or.inl h.1.symm
    · split at h
      · split at h
        · simp at h
          exact Or.inr h.1.symm
        · simp at h
      · simp at h
  · split at h
    · split at h
      · simp at h
        exact Or.inr h.1.symm
      · simp at h
    · simp at h

theorem matchVariableAux_textOK :
    ∀ ps s text rest, (∀ p ∈ ps, p ∈ variablePrefixes) →
      matchVariableAux ps s = some (text, rest) → VarTextOK text := by
  intro ps
  induction ps with
  | nil => intro s text rest _ h; simp [matchVariableAux] at h
  | cons p ps ih =>
    intro s text rest hmem h
    unfold matchVariableAux at h
    split at h
    · rename_i r1 hp
      split at h
      · rename_i suf rest2 hsuf
        simp only [Option.some.injEq, Prod.mk.injEq] at h
        obtain ⟨rfl, rfl⟩ := h
        rcases matchVarSuffix_shape hsuf with rfl | rfl
        · exact ⟨p, hmem p (by simp), "array".data, Or.inr rfl, rfl⟩
        · exact ⟨p, hmem p (by simp), [], Or.inl rfl, rfl⟩
      · exact ih s text rest (fun q hq => hmem q (by simp [hq])) h
    · exact ih s text rest (fun q hq => hmem q (by simp [hq])) h

theorem matchVariableDefault_textOK {s text rest}
    (h : matchVariableDefault s = some (text, rest)) : VarTextOK text :=
  matchVariableAux_textOK variablePrefixes s text rest (fun _ hp => hp) h

theorem findMatch_tokenOK {s : List Char} {k text rest}
    (h : findMatch defaultVariableMatcher s = some (k, text, rest))
    (hk : k ≠ TokenType.WHITESPACE) :
    tokenOK ⟨k, tokenValue k text⟩ ∧ tokenTextChars ⟨k, tokenValue k text⟩ = text := by
  obtain ⟨pre, post, horder, hpre, hm⟩ := findMatch_spec _ h
  cases k with
  | WHITESPACE => exact absurd rfl hk
  | NUMBER => exact ⟨matchNumber_textOK hm, rfl⟩
  | STRING =>
    obtain ⟨content, rfl, hnq⟩ := matchString_shape hm
    constructor
    · show ∀ c ∈ (String.mk ((('"' :: (content ++ ['"'])).drop 1).dropLast)).data, c ≠ '"'
      intro c hc
      simp only [List.drop_succ_cons, List.drop_zero, List.dropLast_concat] at hc
      exact hnq c hc
    · show '"' :: ((String.mk ((('"' :: (content ++ ['"'])).drop 1).dropLast)).data ++ ['"']) = _
      simp only [List.drop_succ_cons, List.drop_zero, List.dropLast_concat]
  | BOOLEAN => exact ⟨matchBoolean_shape hm, rfl⟩
  | VARIABLE => exact ⟨matchVariableDefault_textOK hm, rfl⟩
  | AND => exact ⟨matchAnd_shape hm, rfl⟩
  | EQ => exact ⟨matchKeyword_shape hm, rfl⟩
  | NEQ => exact ⟨matchKeyword_shape hm, rfl⟩
  | LTE => exact ⟨matchKeyword_shape hm, rfl⟩
  | LT => exact ⟨matchKeyword_shape hm, rfl⟩
  | GTE => exact ⟨matchKeyword_shape hm, rfl⟩
  | GT => exact ⟨matchKeyword_shape hm, rfl⟩
  | LPAREN => exact ⟨matchKeyword_shape hm, rfl⟩
  | RPAREN => exact ⟨matchKeyword_shape hm, rfl⟩

theorem tokenizeCore_tokensOK :
    ∀ n s pos ts, s.length ≤ n →
      tokenizeCore defaultVariableMatcher pos s = .ok ts → ∀ t ∈ ts, tokenOK t := by
  intro n
  induction n using Nat.strong_induction_on with
  | _ n ih =>
    intro s pos ts hn h t ht
    cases s with
    | nil =>
      have : ts = [] := by
        have h0 : tokenizeCore defaultVariableMatcher pos [] =
            (Except.ok ([] : List Token) : Except String (List Token)) := rfl
        rw [h0] at h
        simpa using h.symm
      subst this
      simp at ht
    | cons c cs =>
      cases hfm : findMatch defaultVariableMatcher (c :: cs) with
      | none =>
        rw [tokenizeCore_of_findMatch_none _ pos (by simp) hfm] at h
        exact Except.noConfusion h
      | some ktr =>
        obtain ⟨k, text, rest⟩ := ktr
        have hrest := findMatch_rest_lt defaultVariableMatcher hfm
        by_cases hk : k = TokenType.WHITESPACE
        · subst hk
          rw [tokenizeCore_of_findMatch_ws _ pos hfm] at h
          exact ih (n - 1) (by simp at hn; omega) rest _ ts
            (by simp at hn hrest; omega) h t ht
        · rw [tokenizeCore_of_findMatch_tok _ pos hfm hk] at h
          cases hrec : tokenizeCore defaultVariableMatcher (pos + text.length) rest with
          | error e => rw [hrec] at h; exact Except.noConfusion h
          | ok ts' =>
            rw [hrec] at h
            have h' : Except.ok (Token.mk k (tokenValue k text) :: ts') = Except.ok ts := h
            have hts : ts = Token.mk k (tokenValue k text) :: ts' := by
              simpa using h'.symm
            subst hts
            rcases List.mem_cons.mp ht with rfl | ht'
            · exact (findMatch_tokenOK hfm hk).1
            · exact ih (n - 1) (by simp at hn; omega) rest _ ts'
                (by simp at hn hrest; omega) hrec t ht'

/-! ### Micro-lemmas for re-tokenization: matcher failures by head character
and exact matches on reconstructed texts -/

theorem matchKeyword_head_ne {k0 : Char} {kw' : List Char} {c : Char} {x : List Char}
    (h : c ≠ k0) : matchKeyword (k0 :: kw') (c :: x) = none := by
  simp [matchKeyword, startsWith, h]

theorem matchKeywordB_head_ne {k0 : Char} {kw' : List Char} {c : Char} {x : List Char}
    (h : c ≠ k0) : matchKeywordB (k0 :: kw') (c :: x) = none := by
  simp [matchKeywordB, startsWith, h]

theorem matchNumber_head_ne {c : Char} {x : List Char}
    (h : c.isDigit = false) : matchNumber (c :: x) = none := by
  simp [matchNumber, List.takeWhile_cons, h]

theorem matchString_head_ne {c : Char} {x : List Char}
    (h : c ≠ '"') : matchString (c :: x) = none := by
  unfold matchString
  split
  · rename_i r heq
    injection heq with hc hx
    exact absurd hc h
  · rfl

theorem matchAnd_head_ne {c : Char} {x : List Char}
    (h1 : c ≠ 'a') (h2 : c ≠ 'A') : matchAnd (c :: x) = none := by
  show (match matchKeywordB ('a' :: 'n' :: 'd' :: []) (c :: x) with
    | some m => some m
    | none => matchKeywordB ('A' :: 'N' :: 'D' :: []) (c :: x)) = none
  rw [matchKeywordB_head_ne h1, matchKeywordB_head_ne h2]

theorem matchBoolean_head_ne {c : Char} {x : List Char}
    (h1 : c ≠ 't') (h2 : c ≠ 'f') : matchBoolean (c :: x) = none := by
  show (match matchKeywordB ('t' :: 'r' :: 'u' :: 'e' :: []) (c :: x) with
    | some m => some m
    | none => matchKeywordB ('f' :: 'a' :: 'l' :: 's' :: 'e' :: []) (c :: x)) = none
  rw [matchKeywordB_head_ne h1, matchKeywordB_head_ne h2]

/-- A definite character mismatch between a keyword and a (strict) prefix of
the input, making the keyword match fail however the input continues. -/
def litMismatch : List Char → List Char → Bool
  | [], _ => false
  | _ :: _, [] => false
  | k :: ks, c :: cs => if c = k then litMismatch ks cs else true

theorem startsWith_none_of_litMismatch :
    ∀ (kw p X : List Char), litMismatch kw p = true → startsWith kw (p ++ X) = none := by
  intro kw
  induction kw with
  | nil => intro p X h; simp [litMismatch] at h
  | cons k ks ih =>
    intro p X h
    cases p with
    | nil => simp [litMismatch] at h
    | cons c cs =>
      by_cases hc : c = k
      · simp only [litMismatch, if_pos hc] at h
        simp [startsWith, hc, ih cs X h]
      · simp [startsWith, hc]

theorem matchVariableAux_skip {p : List Char} {ps : List (List Char)} {s : List Char}
    (h : startsWith p s = none) :
    matchVariableAux (p :: ps) s = matchVariableAux ps s := by
  show (match startsWith p s with
    | some r1 =>
      match matchVarSuffix r1 with
      | some (suf, rest) => some (p ++ suf, rest)
      | none => matchVariableAux ps s
    | none => matchVariableAux ps s) = matchVariableAux ps s
  rw [h]

theorem matchVariableAux_hit {p : List Char} {ps : List (List Char)} {s r1 suf rest : List Char}
    (h1 : startsWith p s = some r1) (h2 : matchVarSuffix r1 = some (suf, rest)) :
    matchVariableAux (p :: ps) s = some (p ++ suf, rest) := by
  show (match startsWith p s with
    | some r1 =>
      match matchVarSuffix r1 with
      | some (suf, rest) => some (p ++ suf, rest)
      | none => matchVariableAux ps s
    | none => matchVariableAux ps s) = some (p ++ suf, rest)
  rw [h1]
  show (match matchVarSuffix r1 with
    | some (suf, rest) => some (p ++ suf, rest)
    | none => matchVariableAux ps s) = some (p ++ suf, rest)
  rw [h2]

theorem matchVariableDefault_head_ne {c : Char} {x : List Char}
    (hb : c ≠ 'b') (hd : c ≠ 'd') (hi : c ≠ 'i') (hl : c ≠ 'l') (hs : c ≠ 's') :
    matchVariableDefault (c :: x) = none := by
  show matchVariableAux
    [('b' :: "inaryblob".data), ('b' :: "oolean".data), ('d' :: "atetime".data),
     ('d' :: "ouble".data), ('i' :: "nteger".data), ('l' :: "onginteger".data),
     ('s' :: "tring".data)] (c :: x) = none
  rw [matchVariableAux_skip (by simp [startsWith, hb]),
    matchVariableAux_skip (by simp [startsWith, hb]),
    matchVariableAux_skip (by simp [startsWith, hd]),
    matchVariableAux_skip (by simp [startsWith, hd]),
    matchVariableAux_skip (by simp [startsWith, hi]),
    matchVariableAux_skip (by simp [startsWith, hl]),
    matchVariableAux_skip (by simp [startsWith, hs])]
  rfl

theorem digit_not_ws {c : Char} (h : c.isDigit = true) : jsWhitespace c = false := by
  simp only [Char.isDigit, Bool.and_eq_true, decide_eq_true_eq] at h
  obtain ⟨h1, h2⟩ := h
  have h48 : 48 ≤ c.toNat := h1
  have h57 : c.toNat ≤ 57 := h2
  have hcontra : ¬ (jsWhitespace c = true) → jsWhitespace c = false := by
    cases hjw : jsWhitespace c <;> simp
  apply hcontra
  intro hws
  simp only [jsWhitespace, Bool.or_eq_true, Bool.and_eq_true, decide_eq_true_eq] at hws
  omega

theorem digit_ne {c : Char} (h : c.isDigit = true) {d : Char}
    (hd : d.isDigit = false) : c ≠ d := by
  intro heq
  rw [heq, hd] at h
  cases h

theorem matchKeyword_exact (kw r : List Char) : matchKeyword kw (kw ++ r) = some (kw, r) := by
  simp [matchKeyword, startsWith_append]

theorem matchKeywordB_exact (kw : List Char) {r : List Char} (hr : SepOK r) :
    matchKeywordB kw (kw ++ r) = some (kw, r) := by
  show (match startsWith kw (kw ++ r) with
    | some r2 => if boundaryAfter r2 = true then some (kw, r2) else none
    | none => none) = some (kw, r)
  rw [startsWith_append]
  show (if boundaryAfter r = true then some (kw, r) else none) = some (kw, r)
  rw [boundaryAfter_sep hr]
  simp

theorem sepHeadFalse {p : Char → Bool} {r : List Char} (hr : SepOK r)
    (hsp : p ' ' = false) : HeadFalse p r := by
  rcases hr with rfl | ⟨x, rfl⟩
  · trivial
  · exact hsp

theorem matchNumber_exact_int {ds r : List Char} (hne : ds ≠ [])
    (hall : ∀ c ∈ ds, c.isDigit = true) (hr : SepOK r) :
    matchNumber (ds ++ r) = some (ds, r) := by
  have hsplit := takeWhile_append_of_all hall (sepHeadFalse hr (by decide))
  simp only [matchNumber, hsplit.1, hsplit.2]
  rw [if_neg (by simpa [List.isEmpty_iff] using hne)]
  rcases hr with rfl | ⟨x, rfl⟩
  · rfl
  · rfl

theorem matchNumber_exact_frac {ds fs r : List Char} (hds : ds ≠ []) (hfs : fs ≠ [])
    (hallds : ∀ c ∈ ds, c.isDigit = true) (hallfs : ∀ c ∈ fs, c.isDigit = true)
    (hr : SepOK r) :
    matchNumber (ds ++ '.' :: (fs ++ r)) = some (ds ++ '.' :: fs, r) := by
  have hsplit1 := takeWhile_append_of_all hallds
    (show HeadFalse Char.isDigit ('.' :: (fs ++ r)) from
      (by decide : Char.isDigit '.' = false))
  have hsplit2 := takeWhile_append_of_all hallfs (sepHeadFalse hr (by decide))
  simp only [matchNumber, hsplit1.1, hsplit1.2]
  rw [if_neg (by simpa [List.isEmpty_iff] using hds)]
  simp only [hsplit2.1, hsplit2.2]
  rw [if_neg (by simpa [List.isEmpty_iff] using hfs), if_pos (boundaryAfter_sep hr)]

theorem matchString_exact {content r : List Char} (hnq : ∀ c ∈ content, c ≠ '"') :
    matchString ('"' :: ((content ++ ['"']) ++ r)) = some ('"' :: (content ++ ['"']), r) := by
  have hall : ∀ c ∈ content, notQuote c = true := by
    intro c hc
    simp [notQuote, hnq c hc]
  have hsplit := takeWhile_append_of_all hall
    (show HeadFalse notQuote ('"' :: r) from (by decide : notQuote '"' = false))
  have hl : (content ++ ['"']) ++ r = content ++ '"' :: r := by simp
  simp only [matchString, hl, hsplit.1, hsplit.2]

theorem matchVarSuffix_exact {a : List Char} {r : List Char}
    (ha : a = [] ∨ a = "array".data) (hr : SepOK r) :
    matchVarSuffix ((a ++ "_value".data) ++ r) = some (a ++ "_value".data, r) := by
  rcases ha with rfl | rfl
  · show (match startsWith "array_value".data ("_value".data ++ r) with
      | some rest =>
        if boundaryAfter rest then some ("array_value".data, rest)
        else
          match startsWith "_value".data ("_value".data ++ r) with
          | some rest2 => if boundaryAfter rest2 then some ("_value".data, rest2) else none
          | none => none
      | none =>
        match startsWith "_value".data ("_value".data ++ r) with
        | some rest2 => if boundaryAfter rest2 then some ("_value".data, rest2) else none
        | none => none) = some ("_value".data, r)
    rw [startsWith_none_of_litMismatch "array_value".data "_value".data r (by decide)]
    show (match startsWith "_value".data ("_value".data ++ r) with
      | some rest2 => if boundaryAfter rest2 then some ("_value".data, rest2) else none
      | none => none) = some ("_value".data, r)
    rw [startsWith_append "_value".data r]
    show (if boundaryAfter r then some ("_value".data, r) else none) = some ("_value".data, r)
    rw [boundaryAfter_sep hr]
    simp
  · show (match startsWith "array_value".data ("array_value".data ++ r) with
      | some rest =>
        if boundaryAfter rest then some ("array_value".data, rest)
        else
          match startsWith "_value".data ("array_value".data ++ r) with
          | some rest2 => if boundaryAfter rest2 then some ("_value".data, rest2) else none
          | none => none
      | none =>
        match startsWith "_value".data ("array_value".data ++ r) with
        | some rest2 => if boundaryAfter rest2 then some ("_value".data, rest2) else none
        | none => none) = some ("array".data ++ "_value".data, r)
    rw [startsWith_append "array_value".data r]
    show (if boundaryAfter r then some ("array_value".data, r)
      else
        match startsWith "_value".data ("array_value".data ++ r) with
        | some rest2 => if boundaryAfter rest2 then some ("_value".data, rest2) else none
        | none => none) = some ("array".data ++ "_value".data, r)
    rw [boundaryAfter_sep hr]
    simp

theorem matchVariableDefault_exact {p a : List Char} {r : List Char}
    (hp : p ∈ variablePrefixes) (ha : a = [] ∨ a = "array".data) (hr : SepOK r) :
    matchVariableDefault ((p ++ (a ++ "_value".data)) ++ r) =
      some (p ++ (a ++ "_value".data), r) := by
  have hassoc : (p ++ (a ++ "_value".data)) ++ r = p ++ ((a ++ "_value".data) ++ r) := by
    simp
  have hsuf := matchVarSuffix_exact ha hr
  have hhit : ∀ ps, matchVariableAux (p :: ps) (p ++ ((a ++ "_value".data) ++ r)) =
      some (p ++ (a ++ "_value".data), r) :=
    fun ps => matchVariableAux_hit (startsWith_append _ _) hsuf
  rw [hassoc]
  simp only [variablePrefixes, List.mem_cons, List.not_mem_nil, or_false] at hp
  rcases hp with rfl | rfl | rfl | rfl | rfl | rfl | rfl
  · exact hhit _
  · show matchVariableAux ("binaryblob".data :: "boolean".data :: "datetime".data ::
      "double".data :: "integer".data :: "longinteger".data :: "string".data :: [])
      ("boolean".data ++ ((a ++ "_value".data) ++ r)) = _
    rw [matchVariableAux_skip (startsWith_none_of_litMismatch _ _ _ (by decide))]
    exact hhit _
  · show matchVariableAux ("binaryblob".data :: "boolean".data :: "datetime".data ::
      "double".data :: "integer".data :: "longinteger".data :: "string".data :: [])
      ("datetime".data ++ ((a ++ "_value".data) ++ r)) = _
    rw [matchVariableAux_skip (startsWith_none_of_litMismatch _ _ _ (by decide)),
      matchVariableAux_skip (startsWith_none_of_litMismatch _ _ _ (by decide))]
    exact hhit _
  · show matchVariableAux ("binaryblob".data :: "boolean".data :: "datetime".data ::
      "double".data :: "integer".data :: "longinteger".data :: "string".data :: [])
      ("double".data ++ ((a ++ "_value".data) ++ r)) = _
    rw [matchVariableAux_skip (startsWith_none_of_litMismatch _ _ _ (by decide)),
      matchVariableAux_skip (startsWith_none_of_litMismatch _ _ _ (by decide)),
      matchVariableAux_skip (startsWith_none_of_litMismatch _ _ _ (by decide))]
    exact hhit _
  · show matchVariableAux ("binaryblob".data :: "boolean".data :: "datetime".data ::
      "double".data :: "integer".data :: "longinteger".data :: "string".data :: [])
      ("integer".data ++ ((a ++ "_value".data) ++ r)) = _
    rw [matchVariableAux_skip (startsWith_none_of_litMismatch _ _ _ (by decide)),
      matchVariableAux_skip (startsWith_none_of_litMismatch _ _ _ (by decide)),
      matchVariableAux_skip (startsWith_none_of_litMismatch _ _ _ (by decide)),
      matchVariableAux_skip (startsWith_none_of_litMismatch _ _ _ (by decide))]
    exact hhit _
  · show matchVariableAux ("binaryblob".data :: "boolean".data :: "datetime".data ::
      "double".data :: "integer".data :: "longinteger".data :: "string".data :: [])
      ("longinteger".data ++ ((a ++ "_value".data) ++ r)) = _
    rw [matchVariableAux_skip (startsWith_none_of_litMismatch _ _ _ (by decide)),
      matchVariableAux_skip (startsWith_none_of_litMismatch _ _ _ (by decide)),
      matchVariableAux_skip (startsWith_none_of_litMismatch _ _ _ (by decide)),
      matchVariableAux_skip (startsWith_none_of_litMismatch _ _ _ (by decide)),
      matchVariableAux_skip (startsWith_none_of_litMismatch _ _ _ (by decide))]
    exact hhit _
  · show matchVariableAux ("binaryblob".data :: "boolean".data :: "datetime".data ::
      "double".data :: "integer".data :: "longinteger".data :: "string".data :: [])
      ("string".data ++ ((a ++ "_value".data) ++ r)) = _
    rw [matchVariableAux_skip (startsWith_none_of_litMismatch _ _ _ (by decide)),
      matchVariableAux_skip (startsWith_none_of_litMismatch _ _ _ (by decide)),
      matchVariableAux_skip (startsWith_none_of_litMismatch _ _ _ (by decide)),
      matchVariableAux_skip (startsWith_none_of_litMismatch _ _ _ (by decide)),
      matchVariableAux_skip (startsWith_none_of_litMismatch _ _ _ (by decide)),
      matchVariableAux_skip (startsWith_none_of_litMismatch _ _ _ (by decide))]
    exact hhit _

theorem matchBoolean_exact_true {r : List Char} (hr : SepOK r) :
    matchBoolean ("true".data ++ r) = some ("true".data, r) := by
  show (match matchKeywordB "true".data ("true".data ++ r) with
    | some m => some m
    | none => matchKeywordB "false".data ("true".data ++ r)) = some ("true".data, r)
  rw [matchKeywordB_exact _ hr]

theorem matchBoolean_exact_false {r : List Char} (hr : SepOK r) :
    matchBoolean ("false".data ++ r) = some ("false".data, r) := by
  show (match matchKeywordB ('t' :: "rue".data) ('f' :: ("alse".data ++ r)) with
    | some m => some m
    | none => matchKeywordB "false".data ("false".data ++ r)) = some ("false".data, r)
  rw [matchKeywordB_head_ne (by decide)]
  show matchKeywordB "false".data ("false".data ++ r) = some ("false".data, r)
  rw [matchKeywordB_exact _ hr]

theorem matchAnd_exact_and {r : List Char} (hr : SepOK r) :
    matchAnd ("and".data ++ r) = some ("and".data, r) := by
  show (match matchKeywordB "and".data ("and".data ++ r) with
    | some m => some m
    | none => matchKeywordB "AND".data ("and".data ++ r)) = some ("and".data, r)
  rw [matchKeywordB_exact _ hr]

theorem matchAnd_exact_AND {r : List Char} (hr : SepOK r) :
    matchAnd ("AND".data ++ r) = some ("AND".data, r) := by
  show (match matchKeywordB ('a' :: "nd".data) ('A' :: ("ND".data ++ r)) with
    | some m => some m
    | none => matchKeywordB "AND".data ("AND".data ++ r)) = some ("AND".data, r)
  rw [matchKeywordB_head_ne (by decide)]
  show matchKeywordB "AND".data ("AND".data ++ r) = some ("AND".data, r)
  rw [matchKeywordB_exact _ hr]

theorem findMatch_eq (s : List Char) :
    findMatch defaultVariableMatcher s =
      findFirstMatch defaultVariableMatcher
        [TokenType.WHITESPACE, TokenType.LTE, TokenType.GTE, TokenType.EQ,
         TokenType.NEQ, TokenType.LT, TokenType.GT, TokenType.AND,
         TokenType.BOOLEAN, TokenType.VARIABLE, TokenType.NUMBER,
         TokenType.STRING, TokenType.LPAREN, TokenType.RPAREN] s := rfl

theorem findFirstMatch_skip {vm : VariableMatcher} {k : TokenType}
    {ks : List TokenType} {s : List Char} (h : matcherFor vm k s = none) :
    findFirstMatch vm (k :: ks) s = findFirstMatch vm ks s := by
  show (match matcherFor vm k s with
    | some (t, r) => some (k, t, r)
    | none => findFirstMatch vm ks s) = findFirstMatch vm ks s
  rw [h]

theorem findFirstMatch_hit {vm : VariableMatcher} {k : TokenType}
    {ks : List TokenType} {s text rest : List Char}
    (h : matcherFor vm k s = some (text, rest)) :
    findFirstMatch vm (k :: ks) s = some (k, text, rest) := by
  show (match matcherFor vm k s with
    | some (t, r) => some (k, t, r)
    | none => findFirstMatch vm ks s) = some (k, text, rest)
  rw [h]

theorem startsWith_sep_ne {k0 k1 : Char} {kw' r : List Char}
    (hr : SepOK r) (h : k1 ≠ ' ') :
    startsWith (k0 :: k1 :: kw') (k0 :: r) = none := by
  rcases hr with rfl | ⟨x, rfl⟩
  · simp [startsWith]
  · simp [startsWith, Ne.symm h]

theorem matchKeyword_sep_ne {k0 k1 : Char} {kw' r : List Char}
    (hr : SepOK r) (h : k1 ≠ ' ') :
    matchKeyword (k0 :: k1 :: kw') (k0 :: r) = none := by
  simp [matchKeyword, startsWith_sep_ne hr h]

theorem matchWhitespace_single {c : Char} {l : List Char} (hc : jsWhitespace c = false) :
    matchWhitespace (' ' :: c :: l) = some ([' '], c :: l) := by
  have h1 : jsWhitespace ' ' = true := by decide
  simp [matchWhitespace, List.takeWhile_cons, List.dropWhile_cons, h1, hc]

/-- With a head character that is no whitespace and starts no operator, the
scan falls through the first seven patterns of `TOKEN_ORDER`. -/
theorem findFirstMatch_skipOps {c : Char} {x : List Char}
    (hws : jsWhitespace c = false) (hlt : c ≠ '<') (hgt : c ≠ '>')
    (heq : c ≠ '=') (hne : c ≠ '!') :
    findMatch defaultVariableMatcher (c :: x) =
      findFirstMatch defaultVariableMatcher
        [TokenType.AND, TokenType.BOOLEAN, TokenType.VARIABLE, TokenType.NUMBER,
         TokenType.STRING, TokenType.LPAREN, TokenType.RPAREN] (c :: x) := by
  rw [findMatch_eq,
    findFirstMatch_skip (show matcherFor defaultVariableMatcher TokenType.WHITESPACE
      (c :: x) = none from matchWhitespace_none_of_head x hws),
    findFirstMatch_skip (show matcherFor defaultVariableMatcher TokenType.LTE
      (c :: x) = none from matchKeyword_head_ne hlt),
    findFirstMatch_skip (show matcherFor defaultVariableMatcher TokenType.GTE
      (c :: x) = none from matchKeyword_head_ne hgt),
    findFirstMatch_skip (show matcherFor defaultVariableMatcher TokenType.EQ
      (c :: x) = none from matchKeyword_head_ne heq),
    findFirstMatch_skip (show matcherFor defaultVariableMatcher TokenType.NEQ
      (c :: x) = none from matchKeyword_head_ne hne),
    findFirstMatch_skip (show matcherFor defaultVariableMatcher TokenType.LT
      (c :: x) = none from matchKeyword_head_ne hlt),
    findFirstMatch_skip (show matcherFor defaultVariableMatcher TokenType.GT
      (c :: x) = none from matchKeyword_head_ne hgt)]

/-- A head character that also starts no keyword and no variable prefix falls
through everything before `NUMBER`. -/
theorem findFirstMatch_skipToNumber {c : Char} {x : List Char}
    (hws : jsWhitespace c = false) (h1 : c ≠ '<') (h2 : c ≠ '>') (h3 : c ≠ '=')
    (h4 : c ≠ '!') (h5 : c ≠ 'a') (h6 : c ≠ 'A') (h7 : c ≠ 't') (h8 : c ≠ 'f')
    (h9 : c ≠ 'b') (h10 : c ≠ 'd') (h11 : c ≠ 'i') (h12 : c ≠ 'l') (h13 : c ≠ 's') :
    findMatch defaultVariableMatcher (c :: x) =
      findFirstMatch defaultVariableMatcher
        [TokenType.NUMBER, TokenType.STRING, TokenType.LPAREN, TokenType.RPAREN]
        (c :: x) := by
  rw [findFirstMatch_skipOps hws h1 h2 h3 h4,
    findFirstMatch_skip (show matcherFor defaultVariableMatcher TokenType.AND
      (c :: x) = none from matchAnd_head_ne h5 h6),
    findFirstMatch_skip (show matcherFor defaultVariableMatcher TokenType.BOOLEAN
      (c :: x) = none from matchBoolean_head_ne h7 h8),
    findFirstMatch_skip (show matcherFor defaultVariableMatcher TokenType.VARIABLE
      (c :: x) = none from matchVariableDefault_head_ne h9 h10 h11 h12 h13)]

/-- A head character that starts no operator, `and`/`AND` or boolean keyword
falls through everything before `VARIABLE`. -/
theorem findFirstMatch_skipToVariable {c : Char} {x : List Char}
    (hws : jsWhitespace c = false) (h1 : c ≠ '<') (h2 : c ≠ '>') (h3 : c ≠ '=')
    (h4 : c ≠ '!') (h5 : c ≠ 'a') (h6 : c ≠ 'A') (h7 : c ≠ 't') (h8 : c ≠ 'f') :
    findMatch defaultVariableMatcher (c :: x) =
      findFirstMatch defaultVariableMatcher
        [TokenType.VARIABLE, TokenType.NUMBER, TokenType.STRING, TokenType.LPAREN,
         TokenType.RPAREN] (c :: x) := by
  rw [findFirstMatch_skipOps hws h1 h2 h3 h4,
    findFirstMatch_skip (show matcherFor defaultVariableMatcher TokenType.AND
      (c :: x) = none from matchAnd_head_ne h5 h6),
    findFirstMatch_skip (show matcherFor defaultVariableMatcher TokenType.BOOLEAN
      (c :: x) = none from matchBoolean_head_ne h7 h8)]

/-- Re-scanning the reconstructed text of an emitted token, followed by a
separator (end of input or a space), re-produces exactly the same token
kind and text: the token's own pattern is the first of `TOKEN_ORDER` that
matches. -/
theorem findMatch_rejoin {t : Token} {r : List Char} (ht : tokenOK t) (hr : SepOK r) :
    findMatch defaultVariableMatcher (tokenTextChars t ++ r) =
      some (t.type, tokenTextChars t, r) := by
  obtain ⟨tt, tv⟩ := t
  cases tt with
  | WHITESPACE =>
    have hF : False := ht
    exact hF.elim
  | NUMBER =>
    have ht' : NumTextOK tv.data := ht
    show findMatch defaultVariableMatcher (tv.data ++ r) = some (TokenType.NUMBER, tv.data, r)
    rcases ht' with ⟨hne, hall⟩ | ⟨ds, fs, hveq, hds, hfs, hallds, hallfs⟩
    · cases hv : tv.data with
      | nil => exact absurd hv hne
      | cons c cs =>
        have hc : c.isDigit = true := hall c (by rw [hv]; exact List.mem_cons_self c cs)
        have hall' : ∀ d ∈ c :: cs, d.isDigit = true := by rw [← hv]; exact hall
        have hhit : matcherFor defaultVariableMatcher TokenType.NUMBER
            (c :: (cs ++ r)) = some (c :: cs, r) :=
          matchNumber_exact_int (List.cons_ne_nil c cs) hall' hr
        rw [show (c :: cs) ++ r = c :: (cs ++ r) from rfl]
        rw [findFirstMatch_skipToNumber (digit_not_ws hc) (digit_ne hc (by decide))
          (digit_ne hc (by decide)) (digit_ne hc (by decide)) (digit_ne hc (by decide))
          (digit_ne hc (by decide)) (digit_ne hc (by decide)) (digit_ne hc (by decide))
          (digit_ne hc (by decide)) (digit_ne hc (by decide)) (digit_ne hc (by decide))
          (digit_ne hc (by decide)) (digit_ne hc (by decide)) (digit_ne hc (by decide))]
        exact findFirstMatch_hit hhit
    · cases ds with
      | nil => exact absurd rfl hds
      | cons c ds2 =>
        have hc : c.isDigit = true := hallds c (List.mem_cons_self c ds2)
        have hhit : matcherFor defaultVariableMatcher TokenType.NUMBER
            (c :: (ds2 ++ '.' :: (fs ++ r))) = some ((c :: ds2) ++ '.' :: fs, r) :=
          matchNumber_exact_frac hds hfs hallds hallfs hr
        rw [hveq]
        have hl2 : ((c :: ds2) ++ '.' :: fs) ++ r = c :: (ds2 ++ '.' :: (fs ++ r)) := by
          simp
        rw [hl2]
        rw [findFirstMatch_skipToNumber (digit_not_ws hc) (digit_ne hc (by decide))
          (digit_ne hc (by decide)) (digit_ne hc (by decide)) (digit_ne hc (by decide))
          (digit_ne hc (by decide)) (digit_ne hc (by decide)) (digit_ne hc (by decide))
          (digit_ne hc (by decide)) (digit_ne hc (by decide)) (digit_ne hc (by decide))
          (digit_ne hc (by decide)) (digit_ne hc (by decide)) (digit_ne hc (by decide))]
        exact findFirstMatch_hit hhit
  | STRING =>
    have ht' : ∀ c ∈ tv.data, c ≠ '"' := ht
    have hqws : jsWhitespace '"' = false := by decide
    have hqd : Char.isDigit '"' = false := by decide
    have hskipn : matcherFor defaultVariableMatcher TokenType.NUMBER
        ('"' :: ((tv.data ++ ['"']) ++ r)) = none :=
      @matchNumber_head_ne '"' ((tv.data ++ ['"']) ++ r) hqd
    have hhit : matcherFor defaultVariableMatcher TokenType.STRING
        ('"' :: ((tv.data ++ ['"']) ++ r)) = some ('"' :: (tv.data ++ ['"']), r) :=
      @matchString_exact tv.data r ht'
    show findMatch defaultVariableMatcher (('"' :: (tv.data ++ ['"'])) ++ r) =
      some (TokenType.STRING, '"' :: (tv.data ++ ['"']), r)
    rw [show ('"' :: (tv.data ++ ['"'])) ++ r = '"' :: ((tv.data ++ ['"']) ++ r) from rfl]
    rw [findFirstMatch_skipToNumber hqws (by decide) (by decide) (by decide) (by decide)
      (by decide) (by decide) (by decide) (by decide) (by decide) (by decide) (by decide)
      (by decide) (by decide)]
    rw [findFirstMatch_skip hskipn]
    exact findFirstMatch_hit hhit
  | BOOLEAN =>
    have ht' : tv.data = "true".data ∨ tv.data = "false".data := ht
    show findMatch defaultVariableMatcher (tv.data ++ r) = some (TokenType.BOOLEAN, tv.data, r)
    rcases ht' with hv | hv
    · have hws1 : jsWhitespace 't' = false := by decide
      have hta : ('t' : Char) ≠ 'a' := by decide
      have htA : ('t' : Char) ≠ 'A' := by decide
      have hskipa : matcherFor defaultVariableMatcher TokenType.AND
          ('t' :: ("rue".data ++ r)) = none :=
        @matchAnd_head_ne 't' ("rue".data ++ r) hta htA
      have hhit : matcherFor defaultVariableMatcher TokenType.BOOLEAN
          ('t' :: ("rue".data ++ r)) = some ("true".data, r) := matchBoolean_exact_true hr
      rw [hv, show "true".data ++ r = 't' :: ("rue".data ++ r) from rfl]
      rw [findFirstMatch_skipOps hws1 (by decide) (by decide) (by decide) (by decide)]
      rw [findFirstMatch_skip hskipa]
      exact findFirstMatch_hit hhit
    · have hws1 : jsWhitespace 'f' = false := by decide
      have hfa : ('f' : Char) ≠ 'a' := by decide
      have hfA : ('f' : Char) ≠ 'A' := by decide
      have hskipa : matcherFor defaultVariableMatcher TokenType.AND
          ('f' :: ("alse".data ++ r)) = none :=
        @matchAnd_head_ne 'f' ("alse".data ++ r) hfa hfA
      have hhit : matcherFor defaultVariableMatcher TokenType.BOOLEAN
          ('f' :: ("alse".data ++ r)) = some ("false".data, r) := matchBoolean_exact_false hr
      rw [hv, show "false".data ++ r = 'f' :: ("alse".data ++ r) from rfl]
      rw [findFirstMatch_skipOps hws1 (by decide) (by decide) (by decide) (by decide)]
      rw [findFirstMatch_skip hskipa]
      exact findFirstMatch_hit hhit
  | VARIABLE =>
    have ht' : VarTextOK tv.data := ht
    show findMatch defaultVariableMatcher (tv.data ++ r) = some (TokenType.VARIABLE, tv.data, r)
    obtain ⟨p, hp, a, ha, hveq⟩ := ht'
    have hhit0 := matchVariableDefault_exact hp ha hr
    rw [hveq]
    simp only [variablePrefixes, List.mem_cons, List.not_mem_nil, or_false] at hp
    rcases hp with rfl | rfl | rfl | rfl | rfl | rfl | rfl
    · rw [show ("binaryblob".data ++ (a ++ "_value".data)) ++ r =
        'b' :: (("inaryblob".data ++ (a ++ "_value".data)) ++ r) from rfl]
      have hws2 : jsWhitespace 'b' = false := by decide
      rw [findFirstMatch_skipToVariable hws2 (by decide) (by decide) (by decide)
        (by decide) (by decide) (by decide) (by decide) (by decide)]
      exact findFirstMatch_hit (show matcherFor defaultVariableMatcher TokenType.VARIABLE
        ('b' :: (("inaryblob".data ++ (a ++ "_value".data)) ++ r)) =
          some ("binaryblob".data ++ (a ++ "_value".data), r) from hhit0)
    · rw [show ("boolean".data ++ (a ++ "_value".data)) ++ r =
        'b' :: (("oolean".data ++ (a ++ "_value".data)) ++ r) from rfl]
      have hws2 : jsWhitespace 'b' = false := by decide
      rw [findFirstMatch_skipToVariable hws2 (by decide) (by decide) (by decide)
        (by decide) (by decide) (by decide) (by decide) (by decide)]
      exact findFirstMatch_hit (show matcherFor defaultVariableMatcher TokenType.VARIABLE
        ('b' :: (("oolean".data ++ (a ++ "_value".data)) ++ r)) =
          some ("boolean".data ++ (a ++ "_value".data), r) from hhit0)
    · rw [show ("datetime".data ++ (a ++ "_value".data)) ++ r =
        'd' :: (("atetime".data ++ (a ++ "_value".data)) ++ r) from rfl]
      have hws2 : jsWhitespace 'd' = false := by decide
      rw [findFirstMatch_skipToVariable hws2 (by decide) (by decide) (by decide)
        (by decide) (by decide) (by decide) (by decide) (by decide)]
      exact findFirstMatch_hit (show matcherFor defaultVariableMatcher TokenType.VARIABLE
        ('d' :: (("atetime".data ++ (a ++ "_value".data)) ++ r)) =
          some ("datetime".data ++ (a ++ "_value".data), r) from hhit0)
    · rw [show ("double".data ++ (a ++ "_value".data)) ++ r =
        'd' :: (("ouble".data ++ (a ++ "_value".data)) ++ r) from rfl]
      have hws2 : jsWhitespace 'd' = false := by decide
      rw [findFirstMatch_skipToVariable hws2 (by decide) (by decide) (by decide)
        (by decide) (by decide) (by decide) (by decide) (by decide)]
      exact findFirstMatch_hit (show matcherFor defaultVariableMatcher TokenType.VARIABLE
        ('d' :: (("ouble".data ++ (a ++ "_value".data)) ++ r)) =
          some ("double".data ++ (a ++ "_value".data), r) from hhit0)
    · rw [show ("integer".data ++ (a ++ "_value".data)) ++ r =
        'i' :: (("nteger".data ++ (a ++ "_value".data)) ++ r) from rfl]
      have hws2 : jsWhitespace 'i' = false := by decide
      rw [findFirstMatch_skipToVariable hws2 (by decide) (by decide) (by decide)
        (by decide) (by decide) (by decide) (by decide) (by decide)]
      exact findFirstMatch_hit (show matcherFor defaultVariableMatcher TokenType.VARIABLE
        ('i' :: (("nteger".data ++ (a ++ "_value".data)) ++ r)) =
          some ("integer".data ++ (a ++ "_value".data), r) from hhit0)
    · rw [show ("longinteger".data ++ (a ++ "_value".data)) ++ r =
        'l' :: (("onginteger".data ++ (a ++ "_value".data)) ++ r) from rfl]
      have hws2 : jsWhitespace 'l' = false := by decide
      rw [findFirstMatch_skipToVariable hws2 (by decide) (by decide) (by decide)
        (by decide) (by decide) (by decide) (by decide) (by decide)]
      exact findFirstMatch_hit (show matcherFor defaultVariableMatcher TokenType.VARIABLE
        ('l' :: (("onginteger".data ++ (a ++ "_value".data)) ++ r)) =
          some ("longinteger".data ++ (a ++ "_value".data), r) from hhit0)
    · rw [show ("string".data ++ (a ++ "_value".data)) ++ r =
        's' :: (("tring".data ++ (a ++ "_value".data)) ++ r) from rfl]
      have hws2 : jsWhitespace 's' = false := by decide
      rw [findFirstMatch_skipToVariable hws2 (by decide) (by decide) (by decide)
        (by decide) (by decide) (by decide) (by decide) (by decide)]
      exact findFirstMatch_hit (show matcherFor defaultVariableMatcher TokenType.VARIABLE
        ('s' :: (("tring".data ++ (a ++ "_value".data)) ++ r)) =
          some ("string".data ++ (a ++ "_value".data), r) from hhit0)
  | AND =>
    have ht' : tv.data = "and".data ∨ tv.data = "AND".data := ht
    show findMatch defaultVariableMatcher (tv.data ++ r) = some (TokenType.AND, tv.data, r)
    rcases ht' with hv | hv
    · have hws1 : jsWhitespace 'a' = false := by decide
      have hhit : matcherFor defaultVariableMatcher TokenType.AND
          ('a' :: ("nd".data ++ r)) = some ("and".data, r) := matchAnd_exact_and hr
      rw [hv, show "and".data ++ r = 'a' :: ("nd".data ++ r) from rfl]
      rw [findFirstMatch_skipOps hws1 (by decide) (by decide) (by decide) (by decide)]
      exact findFirstMatch_hit hhit
    · have hws1 : jsWhitespace 'A' = false := by decide
      have hhit : matcherFor defaultVariableMatcher TokenType.AND
          ('A' :: ("ND".data ++ r)) = some ("AND".data, r) := matchAnd_exact_AND hr
      rw [hv, show "AND".data ++ r = 'A' :: ("ND".data ++ r) from rfl]
      rw [findFirstMatch_skipOps hws1 (by decide) (by decide) (by decide) (by decide)]
      exact findFirstMatch_hit hhit
  | EQ =>
    have hv : tv.data = "==".data := ht
    have hws1 : jsWhitespace '=' = false := by decide
    have h1 : ('=' : Char) ≠ '<' := by decide
    have h2 : ('=' : Char) ≠ '>' := by decide
    have hskipw : matcherFor defaultVariableMatcher TokenType.WHITESPACE
        ('=' :: ('=' :: r)) = none := matchWhitespace_none_of_head ('=' :: r) hws1
    have hskip1 : matcherFor defaultVariableMatcher TokenType.LTE
        ('=' :: ('=' :: r)) = none := @matchKeyword_head_ne '<' ['='] '=' ('=' :: r) h1
    have hskip2 : matcherFor defaultVariableMatcher TokenType.GTE
        ('=' :: ('=' :: r)) = none := @matchKeyword_head_ne '>' ['='] '=' ('=' :: r) h2
    have hhit : matcherFor defaultVariableMatcher TokenType.EQ
        ('=' :: ('=' :: r)) = some ("==".data, r) := matchKeyword_exact "==".data r
    show findMatch defaultVariableMatcher (tv.data ++ r) = some (TokenType.EQ, tv.data, r)
    rw [hv, show "==".data ++ r = '=' :: ('=' :: r) from rfl, findMatch_eq]
    rw [findFirstMatch_skip hskipw, findFirstMatch_skip hskip1, findFirstMatch_skip hskip2]
    exact findFirstMatch_hit hhit
  | NEQ =>
    have hv : tv.data = "!=".data := ht
    have hws1 : jsWhitespace '!' = false := by decide
    have h1 : ('!' : Char) ≠ '<' := by decide
    have h2 : ('!' : Char) ≠ '>' := by decide
    have h3 : ('!' : Char) ≠ '=' := by decide
    have hskipw : matcherFor defaultVariableMatcher TokenType.WHITESPACE
        ('!' :: ('=' :: r)) = none := matchWhitespace_none_of_head ('=' :: r) hws1
    have hskip1 : matcherFor defaultVariableMatcher TokenType.LTE
        ('!' :: ('=' :: r)) = none := @matchKeyword_head_ne '<' ['='] '!' ('=' :: r) h1
    have hskip2 : matcherFor defaultVariableMatcher TokenType.GTE
        ('!' :: ('=' :: r)) = none := @matchKeyword_head_ne '>' ['='] '!' ('=' :: r) h2
    have hskip3 : matcherFor defaultVariableMatcher TokenType.EQ
        ('!' :: ('=' :: r)) = none := @matchKeyword_head_ne '=' ['='] '!' ('=' :: r) h3
    have hhit : matcherFor defaultVariableMatcher TokenType.NEQ
        ('!' :: ('=' :: r)) = some ("!=".data, r) := matchKeyword_exact "!=".data r
    show findMatch defaultVariableMatcher (tv.data ++ r) = some (TokenType.NEQ, tv.data, r)
    rw [hv, show "!=".data ++ r = '!' :: ('=' :: r) from rfl, findMatch_eq]
    rw [findFirstMatch_skip hskipw, findFirstMatch_skip hskip1, findFirstMatch_skip hskip2,
      findFirstMatch_skip hskip3]
    exact findFirstMatch_hit hhit
  | LTE =>
    have hv : tv.data = "<=".data := ht
    have hws1 : jsWhitespace '<' = false := by decide
    have hskipw : matcherFor defaultVariableMatcher TokenType.WHITESPACE
        ('<' :: ('=' :: r)) = none := matchWhitespace_none_of_head ('=' :: r) hws1
    have hhit : matcherFor defaultVariableMatcher TokenType.LTE
        ('<' :: ('=' :: r)) = some ("<=".data, r) := matchKeyword_exact "<=".data r
    show findMatch defaultVariableMatcher (tv.data ++ r) = some (TokenType.LTE, tv.data, r)
    rw [hv, show "<=".data ++ r = '<' :: ('=' :: r) from rfl, findMatch_eq]
    rw [findFirstMatch_skip hskipw]
    exact findFirstMatch_hit hhit
  | LT =>
    have hv : tv.data = "<".data := ht
    have hws1 : jsWhitespace '<' = false := by decide
    have hsp : ('=' : Char) ≠ ' ' := by decide
    have h1 : ('<' : Char) ≠ '>' := by decide
    have h2 : ('<' : Char) ≠ '=' := by decide
    have h3 : ('<' : Char) ≠ '!' := by decide
    have hskipw : matcherFor defaultVariableMatcher TokenType.WHITESPACE
        ('<' :: r) = none := matchWhitespace_none_of_head r hws1
    have hskip1 : matcherFor defaultVariableMatcher TokenType.LTE
        ('<' :: r) = none := @matchKeyword_sep_ne '<' '=' [] r hr hsp
    have hskip2 : matcherFor defaultVariableMatcher TokenType.GTE
        ('<' :: r) = none := @matchKeyword_head_ne '>' ['='] '<' r h1
    have hskip3 : matcherFor defaultVariableMatcher TokenType.EQ
        ('<' :: r) = none := @matchKeyword_head_ne '=' ['='] '<' r h2
    have hskip4 : matcherFor defaultVariableMatcher TokenType.NEQ
        ('<' :: r) = none := @matchKeyword_head_ne '!' ['='] '<' r h3
    have hhit : matcherFor defaultVariableMatcher TokenType.LT
        ('<' :: r) = some ("<".data, r) := matchKeyword_exact "<".data r
    show findMatch defaultVariableMatcher (tv.data ++ r) = some (TokenType.LT, tv.data, r)
    rw [hv, show "<".data ++ r = '<' :: r from rfl, findMatch_eq]
    rw [findFirstMatch_skip hskipw, findFirstMatch_skip hskip1, findFirstMatch_skip hskip2,
      findFirstMatch_skip hskip3, findFirstMatch_skip hskip4]
    exact findFirstMatch_hit hhit
  | GTE =>
    have hv : tv.data = ">=".data := ht
    have hws1 : jsWhitespace '>' = false := by decide
    have h1 : ('>' : Char) ≠ '<' := by decide
    have hskipw : matcherFor defaultVariableMatcher TokenType.WHITESPACE
        ('>' :: ('=' :: r)) = none := matchWhitespace_none_of_head ('=' :: r) hws1
    have hskip1 : matcherFor defaultVariableMatcher TokenType.LTE
        ('>' :: ('=' :: r)) = none := @matchKeyword_head_ne '<' ['='] '>' ('=' :: r) h1
    have hhit : matcherFor defaultVariableMatcher TokenType.GTE
        ('>' :: ('=' :: r)) = some (">=".data, r) := matchKeyword_exact ">=".data r
    show findMatch defaultVariableMatcher (tv.data ++ r) = some (TokenType.GTE, tv.data, r)
    rw [hv, show ">=".data ++ r = '>' :: ('=' :: r) from rfl, findMatch_eq]
    rw [findFirstMatch_skip hskipw, findFirstMatch_skip hskip1]
    exact findFirstMatch_hit hhit
  | GT =>
    have hv : tv.data = ">".data := ht
    have hws1 : jsWhitespace '>' = false := by decide
    have hsp : ('=' : Char) ≠ ' ' := by decide
    have h1 : ('>' : Char) ≠ '<' := by decide
    have h2 : ('>' : Char) ≠ '=' := by decide
    have h3 : ('>' : Char) ≠ '!' := by decide
    have hskipw : matcherFor defaultVariableMatcher TokenType.WHITESPACE
        ('>' :: r) = none := matchWhitespace_none_of_head r hws1
    have hskip1 : matcherFor defaultVariableMatcher TokenType.LTE
        ('>' :: r) = none := @matchKeyword_head_ne '<' ['='] '>' r h1
    have hskip2 : matcherFor defaultVariableMatcher TokenType.GTE
        ('>' :: r) = none := @matchKeyword_sep_ne '>' '=' [] r hr hsp
    have hskip3 : matcherFor defaultVariableMatcher TokenType.EQ
        ('>' :: r) = none := @matchKeyword_head_ne '=' ['='] '>' r h2
    have hskip4 : matcherFor defaultVariableMatcher TokenType.NEQ
        ('>' :: r) = none := @matchKeyword_head_ne '!' ['='] '>' r h3
    have hskip5 : matcherFor defaultVariableMatcher TokenType.LT
        ('>' :: r) = none := @matchKeyword_head_ne '<' [] '>' r h1
    have hhit : matcherFor defaultVariableMatcher TokenType.GT
        ('>' :: r) = some (">".data, r) := matchKeyword_exact ">".data r
    show findMatch defaultVariableMatcher (tv.data ++ r) = some (TokenType.GT, tv.data, r)
    rw [hv, show ">".data ++ r = '>' :: r from rfl, findMatch_eq]
    rw [findFirstMatch_skip hskipw, findFirstMatch_skip hskip1, findFirstMatch_skip hskip2,
      findFirstMatch_skip hskip3, findFirstMatch_skip hskip4, findFirstMatch_skip hskip5]
    exact findFirstMatch_hit hhit
  | LPAREN =>
    have hv : tv.data = "(".data := ht
    have hws1 : jsWhitespace '(' = false := by decide
    have hnd : Char.isDigit '(' = false := by decide
    have hnq : ('(' : Char) ≠ '"' := by decide
    have hskipn : matcherFor defaultVariableMatcher TokenType.NUMBER
        ('(' :: r) = none := @matchNumber_head_ne '(' r hnd
    have hskips : matcherFor defaultVariableMatcher TokenType.STRING
        ('(' :: r) = none := @matchString_head_ne '(' r hnq
    have hhit : matcherFor defaultVariableMatcher TokenType.LPAREN
        ('(' :: r) = some ("(".data, r) := matchKeyword_exact "(".data r
    show findMatch defaultVariableMatcher (tv.data ++ r) = some (TokenType.LPAREN, tv.data, r)
    rw [hv, show "(".data ++ r = '(' :: r from rfl]
    rw [findFirstMatch_skipToNumber hws1 (by decide) (by decide) (by decide) (by decide)
      (by decide) (by decide) (by decide) (by decide) (by decide) (by decide) (by decide)
      (by decide) (by decide)]
    rw [findFirstMatch_skip hskipn, findFirstMatch_skip hskips]
    exact findFirstMatch_hit hhit
  | RPAREN =>
    have hv : tv.data = ")".data := ht
    have hws1 : jsWhitespace ')' = false := by decide
    have hnd : Char.isDigit ')' = false := by decide
    have hnq : (')' : Char) ≠ '"' := by decide
    have hnp : (')' : Char) ≠ '(' := by decide
    have hskipn : matcherFor defaultVariableMatcher TokenType.NUMBER
        (')' :: r) = none := @matchNumber_head_ne ')' r hnd
    have hskips : matcherFor defaultVariableMatcher TokenType.STRING
        (')' :: r) = none := @matchString_head_ne ')' r hnq
    have hskipl : matcherFor defaultVariableMatcher TokenType.LPAREN
        (')' :: r) = none := @matchKeyword_head_ne '(' [] ')' r hnp
    have hhit : matcherFor defaultVariableMatcher TokenType.RPAREN
        (')' :: r) = some (")".data, r) := matchKeyword_exact ")".data r
    show findMatch defaultVariableMatcher (tv.data ++ r) = some (TokenType.RPAREN, tv.data, r)
    rw [hv, show ")".data ++ r = ')' :: r from rfl]
    rw [findFirstMatch_skipToNumber hws1 (by decide) (by decide) (by decide) (by decide)
      (by decide) (by decide) (by decide) (by decide) (by decide) (by decide) (by decide)
      (by decide) (by decide)]
    rw [findFirstMatch_skip hskipn, findFirstMatch_skip hskips, findFirstMatch_skip hskipl]
    exact findFirstMatch_hit hhit

/-- The reconstructed text of every emitted token starts with a
non-whitespace character. -/
theorem tokenText_head {t : Token} (ht : tokenOK t) :
    ∃ c x, tokenTextChars t = c :: x ∧ jsWhitespace c = false := by
  obtain ⟨tt, tv⟩ := t
  cases tt with
  | WHITESPACE =>
    have hF : False := ht
    exact hF.elim
  | NUMBER =>
    have ht' : NumTextOK tv.data := ht
    show ∃ c x, tv.data = c :: x ∧ jsWhitespace c = false
    rcases ht' with ⟨hne, hall⟩ | ⟨ds, fs, hveq, hds, hfs, hallds, hallfs⟩
    · cases hv : tv.data with
      | nil => exact absurd hv hne
      | cons c cs =>
        have hc : c.isDigit = true := hall c (by rw [hv]; exact List.mem_cons_self c cs)
        exact ⟨c, cs, rfl, digit_not_ws hc⟩
    · cases ds with
      | nil => exact absurd rfl hds
      | cons c ds2 =>
        have hc : c.isDigit = true := hallds c (List.mem_cons_self c ds2)
        exact ⟨c, ds2 ++ '.' :: fs, by rw [hveq]; rfl, digit_not_ws hc⟩
  | STRING => exact ⟨'"', tv.data ++ ['"'], rfl, by decide⟩
  | BOOLEAN =>
    have ht' : tv.data = "true".data ∨ tv.data = "false".data := ht
    show ∃ c x, tv.data = c :: x ∧ jsWhitespace c = false
    rcases ht' with hv | hv
    · exact ⟨'t', "rue".data, by rw [hv], by decide⟩
    · exact ⟨'f', "alse".data, by rw [hv], by decide⟩
  | VARIABLE =>
    have ht' : VarTextOK tv.data := ht
    show ∃ c x, tv.data = c :: x ∧ jsWhitespace c = false
    obtain ⟨p, hp, a, ha, hveq⟩ := ht'
    simp only [variablePrefixes, List.mem_cons, List.not_mem_nil, or_false] at hp
    rcases hp with rfl | rfl | rfl | rfl | rfl | rfl | rfl
    · exact ⟨'b', "inaryblob".data ++ (a ++ "_value".data), by rw [hveq]; rfl, by decide⟩
    · exact ⟨'b', "oolean".data ++ (a ++ "_value".data), by rw [hveq]; rfl, by decide⟩
    · exact ⟨'d', "atetime".data ++ (a ++ "_value".data), by rw [hveq]; rfl, by decide⟩
    · exact ⟨'d', "ouble".data ++ (a ++ "_value".data), by rw [hveq]; rfl, by decide⟩
    · exact ⟨'i', "nteger".data ++ (a ++ "_value".data), by rw [hveq]; rfl, by decide⟩
    · exact ⟨'l', "onginteger".data ++ (a ++ "_value".data), by rw [hveq]; rfl, by decide⟩
    · exact ⟨'s', "tring".data ++ (a ++ "_value".data), by rw [hveq]; rfl, by decide⟩
  | AND =>
    have ht' : tv.data = "and".data ∨ tv.data = "AND".data := ht
    show ∃ c x, tv.data = c :: x ∧ jsWhitespace c = false
    rcases ht' with hv | hv
    · exact ⟨'a', "nd".data, by rw [hv], by decide⟩
    · exact ⟨'A', "ND".data, by rw [hv], by decide⟩
  | EQ =>
    have hv : tv.data = "==".data := ht
    exact ⟨'=', ['='], hv.trans rfl, by decide⟩
  | NEQ =>
    have hv : tv.data = "!=".data := ht
    exact ⟨'!', ['='], hv.trans rfl, by decide⟩
  | LTE =>
    have hv : tv.data = "<=".data := ht
    exact ⟨'<', ['='], hv.trans rfl, by decide⟩
  | LT =>
    have hv : tv.data = "<".data := ht
    exact ⟨'<', [], hv.trans rfl, by decide⟩
  | GTE =>
    have hv : tv.data = ">=".data := ht
    exact ⟨'>', ['='], hv.trans rfl, by decide⟩
  | GT =>
    have hv : tv.data = ">".data := ht
    exact ⟨'>', [], hv.trans rfl, by decide⟩
  | LPAREN =>
    have hv : tv.data = "(".data := ht
    exact ⟨'(', [], hv.trans rfl, by decide⟩
  | RPAREN =>
    have hv : tv.data = ")".data := ht
    exact ⟨')', [], hv.trans rfl, by decide⟩

/-- The rejoined text of a nonempty token sequence starts with a
non-whitespace character. -/
theorem joinChars_head {t : Token} (ht : tokenOK t) (ts : List Token) :
    ∃ c x, joinChars (t :: ts) = c :: x ∧ jsWhitespace c = false := by
  obtain ⟨c, x, hx, hc⟩ := tokenText_head ht
  cases ts with
  | nil => exact ⟨c, x, hx, hc⟩
  | cons t2 ts2 =>
    refine ⟨c, x ++ ' ' :: joinChars (t2 :: ts2), ?_, hc⟩
    show tokenTextChars t ++ ' ' :: joinChars (t2 :: ts2) =
      c :: (x ++ ' ' :: joinChars (t2 :: ts2))
    rw [hx]
    rfl

/-- Rebuilding a token from the kind and stored value of its reconstructed
text gives the token back: the scan stores the matched text verbatim, except
for `STRING` where it stores the content between the quotes. -/
theorem token_reconstruct (t : Token) :
    Token.mk t.type (tokenValue t.type (tokenTextChars t)) = t := by
  obtain ⟨tt, tv⟩ := t
  cases tt
  case STRING =>
    have h : ((('"' :: (tv.data ++ ['"'])).drop 1).dropLast) = tv.data := by simp
    show Token.mk TokenType.STRING
      (String.mk ((('"' :: (tv.data ++ ['"'])).drop 1).dropLast)) =
      Token.mk TokenType.STRING tv
    rw [h]
  all_goals rfl

/-- No emitted token is a whitespace token. -/
theorem tokenOK_not_ws {t : Token} (ht : tokenOK t) : t.type ≠ TokenType.WHITESPACE := by
  intro h
  obtain ⟨tt, tv⟩ := t
  have h' : tt = TokenType.WHITESPACE := h
  subst h'
  exact ht

/-- Re-tokenizing the texts of an emitted token sequence, joined by single
spaces, reproduces the token sequence exactly, from any starting offset. -/
theorem tokensOK_retokenize :
    ∀ ts : List Token, (∀ t ∈ ts, tokenOK t) → ∀ pos,
      tokenizeCore defaultVariableMatcher pos (joinChars ts) = Except.ok ts := by
  intro ts
  induction ts with
  | nil => intro _ pos; rfl
  | cons t ts ih =>
    intro hOK pos
    have htOK : tokenOK t := hOK t (List.mem_cons_self t ts)
    have hnw : t.type ≠ TokenType.WHITESPACE := tokenOK_not_ws htOK
    cases ts with
    | nil =>
      have hfm0 : findMatch defaultVariableMatcher (tokenTextChars t ++ []) =
          some (t.type, tokenTextChars t, []) := findMatch_rejoin htOK (Or.inl rfl)
      rw [List.append_nil] at hfm0
      show tokenizeCore defaultVariableMatcher pos (tokenTextChars t) = Except.ok [t]
      rw [tokenizeCore_of_findMatch_tok defaultVariableMatcher pos hfm0 hnw]
      have h0 : tokenizeCore defaultVariableMatcher (pos + (tokenTextChars t).length) [] =
          (Except.ok ([] : List Token) : Except String (List Token)) := rfl
      rw [h0]
      show Except.ok [Token.mk t.type (tokenValue t.type (tokenTextChars t))] = Except.ok [t]
      rw [token_reconstruct]
    | cons t2 ts2 =>
      have hsep : SepOK (' ' :: joinChars (t2 :: ts2)) :=
        Or.inr ⟨joinChars (t2 :: ts2), rfl⟩
      have hfm0 : findMatch defaultVariableMatcher
          (tokenTextChars t ++ ' ' :: joinChars (t2 :: ts2)) =
          some (t.type, tokenTextChars t, ' ' :: joinChars (t2 :: ts2)) :=
        findMatch_rejoin htOK hsep
      have htOK2 : tokenOK t2 := hOK t2 (List.mem_cons_of_mem t (List.mem_cons_self t2 ts2))
      obtain ⟨c, x, hx, hc⟩ := joinChars_head htOK2 ts2
      have hmws : matchWhitespace (' ' :: joinChars (t2 :: ts2)) =
          some ([' '], joinChars (t2 :: ts2)) := by
        rw [hx]
        exact matchWhitespace_single hc
      have hwsfm : findMatch defaultVariableMatcher (' ' :: joinChars (t2 :: ts2)) =
          some (TokenType.WHITESPACE, [' '], joinChars (t2 :: ts2)) := by
        rw [findMatch_eq]
        exact findFirstMatch_hit (show matcherFor defaultVariableMatcher TokenType.WHITESPACE
          (' ' :: joinChars (t2 :: ts2)) = some ([' '], joinChars (t2 :: ts2)) from hmws)
      have hOK' : ∀ u ∈ t2 :: ts2, tokenOK u := fun u hu => hOK u (List.mem_cons_of_mem t hu)
      show tokenizeCore defaultVariableMatcher pos
        (tokenTextChars t ++ ' ' :: joinChars (t2 :: ts2)) = Except.ok (t :: t2 :: ts2)
      rw [tokenizeCore_of_findMatch_tok defaultVariableMatcher pos hfm0 hnw]
      rw [tokenizeCore_of_findMatch_ws defaultVariableMatcher _ hwsfm]
      rw [ih hOK']
      show Except.ok (Token.mk t.type (tokenValue t.type (tokenTextChars t)) :: t2 :: ts2) =
        Except.ok (t :: t2 :: ts2)
      rw [token_reconstruct]

/-- C7: for every string that tokenizes successfully, tokenizing the
concatenation of the literal texts of the resulting token sequence, joined by
single spaces, succeeds and reproduces an equivalent sequence of token kinds
(in fact the identical token sequence). -/
theorem C7_retokenize (input : String) (ts : List Token)
    (h : tokenize input = Except.ok ts) :
    ∃ ts2, tokenize (joinTexts ts) = Except.ok ts2 ∧
      ts2.map Token.type = ts.map Token.type := by
  have hOK : ∀ t ∈ ts, tokenOK t :=
    tokenizeCore_tokensOK input.data.length input.data 0 ts le_rfl h
  exact ⟨ts, tokensOK_retokenize ts hOK 0, rfl⟩

theorem C7_retokenize_witness :
    (tokenize "1<2" = Except.ok [Token.mk TokenType.NUMBER "1",
      Token.mk TokenType.LT "<", Token.mk TokenType.NUMBER "2"]) ∧
    ∃ ts2, tokenize (joinTexts [Token.mk TokenType.NUMBER "1",
        Token.mk TokenType.LT "<", Token.mk TokenType.NUMBER "2"]) = Except.ok ts2 ∧
      ts2.map Token.type = [Token.mk TokenType.NUMBER "1", Token.mk TokenType.LT "<",
        Token.mk TokenType.NUMBER "2"].map Token.type :=
  ⟨by decide, C7_retokenize "1<2" _ (by decide)⟩

end ExprParser
